import Mathlib

/-!
# Verification of the `ocrv` repository

Shallow embedding of the two core subsystems of the repository:

* the arithmetic reconciliation engine of `src/server/index.js`
  (`toNumber`, `round2`, `approxEqual`, `reconcileMath`), and
* the image-to-text pipeline pieces of `src/unnamed/part_000`
  (`preprocessCanvas`'s pixel loops, `scoreOcrText`, `ocrTiff`).

JavaScript numbers are modelled as exact rationals (`ℚ`); `Number.EPSILON`
is the rational `2 ^ (-52)`.  JavaScript values are modelled by the
inductive type `JVal`; objects are insertion-ordered association lists,
which is how property reads, writes and key-insertion order behave on
plain JS objects.  Code that can throw (property access on `null` or
`undefined`) is modelled in the `Except` monad.
-/

/-- A JavaScript value, as far as the reconciliation engine observes it:
`null`, `undefined`, finite numbers (as `ℚ`), strings, booleans,
plain objects (insertion-ordered association lists) and arrays.
`NaN`/`Infinity` are not representable in the `ℚ` idealization; the engine
itself never produces them (`toNumber` filters non-finite input). -/
inductive JVal where
  | vNull : JVal
  | vUndef : JVal
  | vNum : ℚ → JVal
  | vStr : String → JVal
  | vBool : Bool → JVal
  | vObj : List (String × JVal) → JVal
  | vArr : List JVal → JVal

/-- The list of key/value pairs of a JS object. -/
abbrev Fields := List (String × JVal)

/-- Property read on a plain object: first binding of the key wins,
a missing key reads as `undefined`. -/
def getF : Fields → String → JVal
  | [], _ => .vUndef
  | (k, v) :: rest, key => if k = key then v else getF rest key

/-- Property write on a plain object: an existing key is updated in place
(keeping its position, as JS objects do), a new key is appended at the end
(JS insertion order). -/
def setF : Fields → String → JVal → Fields
  | [], key, v => [(key, v)]
  | (k, w) :: rest, key, v =>
    if k = key then (k, v) :: rest else (k, w) :: setF rest key v

/-- The only runtime error the engine can raise: a `TypeError` from
reading a property of `null`/`undefined` (a non-object element of
`line_items`). -/
inductive JErr where
  | typeError : JErr

/-- Reading a named property of an arbitrary value inside `reconcileMath`'s
item loop: objects use their fields, other primitives and arrays have none
of our keys, and `null`/`undefined` would throw (handled by the caller). -/
def itemGet : JVal → String → JVal
  | .vObj f, k => getF f k
  | _, _ => (.vUndef : JVal)

/-- Lift an optional rational back into a JS value (`null` for `none`),
matching how the engine stores normalized numeric fields. -/
def oj : Option ℚ → JVal
  | none => .vNull
  | some q => .vNum q

/-! ## Numeric core: `round2`, `Math.round`, `Number.EPSILON` -/

/-- `Number.EPSILON = 2^(-52)`. -/
def epsQ : ℚ := 1 / 2 ^ 52

/-- `Math.round`: round half toward positive infinity,
`Math.round x = ⌊x + 1/2⌋`. -/
def jsRound (q : ℚ) : ℤ := ⌊q + 1 / 2⌋

/-- `round2` on a present number:
`Math.round((n + Number.EPSILON) * 100) / 100` (src/server/index.js:62-65). -/
def round2q (n : ℚ) : ℚ := (jsRound ((n + epsQ) * 100) : ℚ) / 100

/-- `round2`: `null`/`undefined` propagate, numbers are rounded to two
decimals (src/server/index.js:62-65). -/
def round2 (n : Option ℚ) : Option ℚ := n.map round2q

/-! ## `toNumber` (src/server/index.js:49-60)

For a non-number, non-nullish value `x` the source computes
`String(x).replace(/[, ]+/g, "").replace(/[^0-9.-]/g, "")` and parses the
result with `Number(...)`.  The two `replace`s jointly keep exactly the
characters `[0-9.-]`, so they are modelled as a single filter.  `String`
conversion follows the JS rules: strings are themselves, booleans print
`true`/`false`, plain objects print `[object Object]`, and arrays join
their stringified elements with `","` (`null`/`undefined` elements print
empty).  Number-to-string printing is modelled as exact decimal expansion
(up to 20 fractional digits), which agrees with JS for the terminating
decimals the engine manipulates. -/

/-- Decimal digits of the fractional part of a nonnegative rational,
`fuel` digits at most. -/
def fracDigits : ℕ → ℚ → List Char
  | 0, _ => []
  | fuel + 1, r =>
    if r = 0 then []
    else
      let r10 := r * 10
      let d := ⌊r10⌋
      Char.ofNat ('0'.toNat + d.toNat) :: fracDigits fuel (r10 - (d : ℚ))

/-- Decimal printing of a nonnegative rational. -/
def numToStringNN (q : ℚ) : String :=
  let ip := (⌊q⌋).toNat
  let frac := q - (ip : ℚ)
  let ds := fracDigits 20 frac
  if ds = [] then toString ip else toString ip ++ "." ++ String.mk ds

/-- JS number-to-string conversion (idealized to exact decimals). -/
def numToString (q : ℚ) : String :=
  if q < 0 then "-" ++ numToStringNN (-q) else numToStringNN q

mutual
/-- `String(x)` for a JS value. -/
def jsToString : JVal → String
  | .vNull => "null"
  | .vUndef => "undefined"
  | .vNum q => numToString q
  | .vStr s => s
  | .vBool b => if b then "true" else "false"
  | .vObj _ => "[object Object]"
  | .vArr l => jsArrJoin l

/-- `Array.prototype.toString`: elements joined with `","`. -/
def jsArrJoin : List JVal → String
  | [] => ""
  | [x] => jsElemStr x
  | x :: y :: rest => jsElemStr x ++ "," ++ jsArrJoin (y :: rest)

/-- An array element prints empty when `null`/`undefined`. -/
def jsElemStr : JVal → String
  | .vNull => ""
  | .vUndef => ""
  | v => jsToString v
end

/-- Characters kept by the two `replace` calls of `toNumber`. -/
def isNumChar (c : Char) : Bool :=
  (48 ≤ c.toNat && c.toNat ≤ 57) || c == '.' || c == '-'

/-- A decimal digit (codes 48-57). -/
def isDigitChar (c : Char) : Bool :=
  48 ≤ c.toNat && c.toNat ≤ 57

/-- Value of a digit string (most significant first). -/
def digitsVal (l : List Char) : ℕ :=
  l.foldl (fun a c => 10 * a + (c.toNat - '0'.toNat)) 0

/-- `Number(s)` for a string made only of the characters `[0-9.-]`
(the residue of `toNumber`'s stripping): an optional leading `-`,
then digits with at most one decimal point and at least one digit;
anything else is `NaN` (`none`). -/
def parseJsNum (cs : List Char) : Option ℚ :=
  let (neg, rest) :=
    match cs with
    | '-' :: t => (true, t)
    | _ => (false, cs)
  if rest = [] then none
  else if rest.any (fun c => c == '-') then none
  else if 1 < rest.countP (fun c => c == '.') then none
  else if !rest.any isDigitChar then none
  else
    let ipart := rest.takeWhile (fun c => !(c == '.'))
    let fpart := (rest.dropWhile (fun c => !(c == '.'))).drop 1
    let v : ℚ := (digitsVal ipart : ℚ) + (digitsVal fpart : ℚ) / 10 ^ fpart.length
    some (if neg then -v else v)

/-- `toNumber` (src/server/index.js:49-60): `null`/`undefined` give `null`;
finite numbers pass through; anything else is stringified, stripped to
`[0-9.-]` and parsed, with the empty residue or an unparseable residue
giving `null`. -/
def toNumber : JVal → Option ℚ
  | .vNull => none
  | .vUndef => none
  | .vNum q => some q
  | x =>
    let s := (jsToString x).toList.filter isNumChar
    if s = [] then none else parseJsNum s

/-- `approxEqual` on two present numbers (src/server/index.js:67-70);
the engine only calls it with non-null arguments. -/
def approxQ (a b tol : ℚ) : Bool := |a - b| ≤ tol

/-! ## The reconciliation engine (src/server/index.js:72-155)

The imperative body of `reconcileMath` assigns each field at most at a
fixed set of program points and every later read sees the last assignment,
so the mutation sequence is translated into straight-line definitions
(one per assignment chain).  The final object is rebuilt with `setF` in
the order of the *first* assignment to each key
(`subtotal`, `tax_rate`, `tax_amount`, `total` at lines 75-78, then
`line_items` at line 84), which reproduces JS key-insertion order. -/

/-- `?? null` on the descriptive fields of a line item
(src/server/index.js:120-121): `null`/`undefined` become `null`,
every other value (including the empty string) is kept. -/
def coalesceDesc : JVal → JVal
  | .vNull => .vNull
  | .vUndef => .vNull
  | v => v

/-- Step "fill missing amount" (line 90): `amt = round2(qty * unit)`. -/
def fillAmt (qty0 unit0 amt0 : Option ℚ) : Option ℚ :=
  match amt0, qty0, unit0 with
  | none, some q, some u => some (round2q (q * u))
  | _, _, _ => amt0

/-- Step "fill missing unit" (lines 93-94): `unit = round2(amt / qty)`
when `qty ≠ 0`. -/
def fillUnit (qty0 amt1 unit0 : Option ℚ) : Option ℚ :=
  match unit0, qty0, amt1 with
  | none, some q, some a => if q = 0 then none else some (round2q (a / q))
  | _, _, _ => unit0

/-- Step "fill missing qty (prefer integer)" (lines 97-101):
`q = amt / unit`; snap to `Math.round q` when strictly within `0.02`,
else keep `round2 q`. -/
def fillQty (unit1 amt1 qty0 : Option ℚ) : Option ℚ :=
  match qty0, unit1, amt1 with
  | none, some u, some a =>
    if u = 0 then none
    else
      let q := a / u
      let n := jsRound q
      if |q - (n : ℚ)| < 1 / 50 then some (n : ℚ) else some (round2q q)
  | _, _, _ => qty0

/-- Step "if all 3 exist but inconsistent" (lines 104-117).  Returns the
corrected `(qty, unit)` pair.  When `unit = 0`, the JS computation
`q = amt / unit` yields `±Infinity` and `Math.abs(q - qInt)` is `NaN`, so
the snap condition is false; this is modelled by the explicit `u ≠ 0`
conjunct. -/
def fixQtyUnit (qty1 unit1 amt1 : Option ℚ) : Option ℚ × Option ℚ :=
  match qty1, unit1, amt1 with
  | some qy, some u, some a =>
    let calcV := round2q (qy * u)
    if approxQ calcV a (1 / 20) then (some qy, some u)
    else
      let q := a / u
      let n := jsRound q
      if u ≠ 0 ∧ |q - (n : ℚ)| < 1 / 20 ∧ approxQ (round2q ((n : ℚ) * u)) a (1 / 10)
      then (some (n : ℚ), some u)
      else if qy = 0 then (some qy, some u) else (some qy, some (round2q (a / qy)))
  | _, _, _ => (qty1, unit1)

/-- The object literal returned for each line item
(src/server/index.js:119-125): exactly the five keys, in source order. -/
def mkItem (p d : JVal) (q u a : Option ℚ) : JVal :=
  .vObj [("product_or_service", p), ("description", d),
         ("qty", oj q), ("unit_price", oj u), ("amount", oj a)]

/-- The numeric pipeline of the item repair (src/server/index.js:89-117)
on the already-normalized triple `(qty, unit, amt)`: fill the missing
member, then the inconsistency fix.  Returns the final `(qty, unit, amt)`. -/
def repairTriple (qty0 unit0 amt0 : Option ℚ) : Option ℚ × Option ℚ × Option ℚ :=
  let amt1 := fillAmt qty0 unit0 amt0
  let unit1 := fillUnit qty0 amt1 unit0
  let qty1 := fillQty unit1 amt1 qty0
  let qu := fixQtyUnit qty1 unit1 amt1
  (qu.1, qu.2, amt1)

/-- The body of `items.map((it) => ...)` (src/server/index.js:84-126).
Reading `it.qty` on a `null`/`undefined` element throws a `TypeError`;
any other non-object element just reads all fields as `undefined`. -/
def repairItem (it : JVal) : Except JErr JVal :=
  match it with
  | .vNull => .error .typeError
  | .vUndef => .error .typeError
  | _ =>
    let t := repairTriple (toNumber (itemGet it "qty"))
      (round2 (toNumber (itemGet it "unit_price")))
      (round2 (toNumber (itemGet it "amount")))
    .ok (mkItem (coalesceDesc (itemGet it "product_or_service"))
                (coalesceDesc (itemGet it "description"))
                t.1 t.2.1 t.2.2)

/-- `Array.map` with a throwing body: the first exception aborts the map. -/
def mapME (g : JVal → Except JErr JVal) : List JVal → Except JErr (List JVal)
  | [] => .ok []
  | x :: xs =>
    match g x with
    | .error e => .error e
    | .ok y =>
      match mapME g xs with
      | .error e => .error e
      | .ok ys => .ok (y :: ys)

/-- Normalized `subtotal` (line 75). -/
def subNorm (f : Fields) : Option ℚ := round2 (toNumber (getF f "subtotal"))

/-- Normalized `tax_rate` (line 76) — parsed but not rounded. -/
def rateNorm (f : Fields) : Option ℚ := toNumber (getF f "tax_rate")

/-- Normalized `tax_amount` (line 77). -/
def taxNorm (f : Fields) : Option ℚ := round2 (toNumber (getF f "tax_amount"))

/-- Normalized `total` (line 78). -/
def totNorm (f : Fields) : Option ℚ := round2 (toNumber (getF f "total"))

/-- `Array.isArray(structured.line_items) ? structured.line_items : []`
(lines 80-82). -/
def rawItems (f : Fields) : List JVal :=
  match getF f "line_items" with
  | .vArr l => l
  | _ => []

/-- One addend of the subtotal sum: `toNumber(it.amount) || 0` (line 130).
`toNumber` never yields `NaN` and `0 || 0 = 0`, so `|| 0` is `getD 0`. -/
def itemAmountTerm (it : JVal) : ℚ := (toNumber (itemGet it "amount")).getD 0

/-- `sumItems` (lines 129-131): rounded sum of repaired line-item amounts. -/
def sumItemsQ (its : List JVal) : ℚ :=
  round2q (its.foldl (fun s it => s + itemAmountTerm it) 0)

/-- The guarded write `if (structured.subtotal === null && sumItems)`
(lines 128-132) as a function of the normalized subtotal and the rounded
item sum. -/
def subStep (s0 : Option ℚ) (sum : ℚ) : Option ℚ :=
  match s0 with
  | none => if sum ≠ 0 then some sum else none
  | some q => some q

/-- Final `subtotal` (lines 128-132): derived from the items only when
still `null` and the rounded sum is non-zero (truthy). -/
def subDerived (f : Fields) (its : List JVal) : Option ℚ :=
  subStep (subNorm f) (sumItemsQ its)

/-- The guarded write of lines 134-143 as a function of the current
`tax_amount`, `subtotal` and `tax_rate`. -/
def taxStep (t0 s r : Option ℚ) : Option ℚ :=
  match t0, s, r with
  | none, some st, some tr => some (round2q (st * (tr / 100)))
  | t, _, _ => t

/-- Final `tax_amount` (lines 134-143): derived from `subtotal` (after its
own derivation) and `tax_rate` only when still `null`. -/
def taxDerived (f : Fields) (its : List JVal) : Option ℚ :=
  taxStep (taxNorm f) (subDerived f its) (rateNorm f)

/-- The guarded write of lines 145-152 as a function of the current
`total`, `subtotal` and `tax_amount`. -/
def totStep (t0 s ta : Option ℚ) : Option ℚ :=
  match t0, s, ta with
  | none, some st, some tta => some (round2q (st + tta))
  | t, _, _ => t

/-- Final `total` (lines 145-152): derived from `subtotal` and
`tax_amount` (each after derivation) only when still `null`. -/
def totDerived (f : Fields) (its : List JVal) : Option ℚ :=
  totStep (totNorm f) (subDerived f its) (taxDerived f its)

/-- The five writes back into the record, in first-assignment order
(lines 75-78 write the four numeric fields, line 84 writes `line_items`;
the later derivations only re-assign already-present keys, so the final
object is the input with these five keys set to their final values). -/
def outFields (f : Fields) (its : List JVal) : Fields :=
  setF (setF (setF (setF (setF f
    "subtotal" (oj (subDerived f its)))
    "tax_rate" (oj (rateNorm f)))
    "tax_amount" (oj (taxDerived f its)))
    "total" (oj (totDerived f its)))
    "line_items" (.vArr its)

/-- `reconcileMath` on an actual object: repair every item, then write the
five mutated keys back. -/
def reconcileObj (f : Fields) : Except JErr Fields :=
  match mapME repairItem (rawItems f) with
  | .error e => .error e
  | .ok its => .ok (outFields f its)

/-- `reconcileMath` (src/server/index.js:72-155).  The guard
`!structured || typeof structured !== "object"` returns `null`,
`undefined` and every primitive unchanged; plain objects are processed.
(JS arrays also have `typeof "object"`; the transport layer only ever
passes the JSON object produced by the extraction call, and arrays are
not modelled as records here.) -/
def reconcileMath (v : JVal) : Except JErr JVal :=
  match v with
  | .vObj f => (reconcileObj f).map .vObj
  | v => .ok v

/-- `reconcile(reconcile(x))` — composition in the `Except` monad. -/
def reconcileTwice (v : JVal) : Except JErr JVal :=
  (reconcileMath v).bind reconcileMath

/-! ## Preprocessor pixel stages (src/unnamed/part_000:46-132)

`preprocessCanvas` first draws the source canvas scaled into a fresh
canvas (an external, browser-defined resampling — `drawImage` with
smoothing); everything after `getImageData` is pure pixel arithmetic and
is modelled here: the grayscale/contrast/threshold/invert loop
(lines 80-99) and the optional sharpen convolution (lines 104-129).
A bitmap is the flat RGBA byte list of `ImageData` (length `4*w*h`). -/

/-- The caller-tunable pixel options of `preprocessCanvas` (the `upscale`
factor only affects the external `drawImage` resampling and is omitted). -/
structure PreCfg where
  contrast : ℚ
  threshold : ℚ
  grayscale : Bool
  sharpen : Bool
  invert : Bool

/-- One iteration of the grayscale/contrast/threshold loop
(src/unnamed/part_000:80-99) on a single RGBA pixel. -/
def binChunk (cfg : PreCfg) (r g b a : ℕ) : List ℕ :=
  let c := cfg.contrast / 100 + 1
  let icept := 128 * (1 - c)
  let rgb : ℚ × ℚ × ℚ :=
    if cfg.grayscale then
      let gray := (299 * (r : ℚ) + 587 * (g : ℚ) + 114 * (b : ℚ)) / 1000
      (gray, gray, gray)
    else ((r : ℚ), (g : ℚ), (b : ℚ))
  let r1 := rgb.1 * c + icept
  let g1 := rgb.2.1 * c + icept
  let b1 := rgb.2.2 * c + icept
  let v : ℕ := if cfg.threshold ≤ (r1 + g1 + b1) / 3 then 255 else 0
  let v := if cfg.invert then 255 - v else v
  [v, v, v, a]

/-- The whole grayscale/contrast/threshold pass over the flat RGBA data
(alpha preserved). -/
def binarizePixels (cfg : PreCfg) : List ℕ → List ℕ
  | r :: g :: b :: a :: rest => binChunk cfg r g b a ++ binarizePixels cfg rest
  | rest => rest

/-- `Math.max(0, Math.min(255, v))` followed by the byte store. -/
def clampByte (v : ℤ) : ℕ := (max 0 (min 255 v)).toNat

/-- A source byte read `src[j]` (indices used by the loop are in bounds
for a `4*w*h` buffer). -/
def pixAt (src : List ℕ) (j : ℕ) : ℤ := (src.getD j 0 : ℤ)

/-- The sharpen kernel `[0 -1 0; -1 5 -1; 0 -1 0]` at interior pixel
`(x, y)`, channel `ch` (src/unnamed/part_000:116-123). -/
def sharpenAt (w : ℕ) (src : List ℕ) (x y ch : ℕ) : ℕ :=
  clampByte (5 * pixAt src ((y * w + x) * 4 + ch)
    - pixAt src ((y * w + (x - 1)) * 4 + ch)
    - pixAt src ((y * w + (x + 1)) * 4 + ch)
    - pixAt src (((y - 1) * w + x) * 4 + ch)
    - pixAt src (((y + 1) * w + x) * 4 + ch))

/-- The four stores of one interior iteration of the sharpen loop
(three convolved channels at `i = (y*w+x)*4` and the copied alpha). -/
def writePixel (w : ℕ) (src dst : List ℕ) (x y : ℕ) : List ℕ :=
  ((((dst.set ((y * w + x) * 4) (sharpenAt w src x y 0)).set
      ((y * w + x) * 4 + 1) (sharpenAt w src x y 1)).set
      ((y * w + x) * 4 + 2) (sharpenAt w src x y 2)).set
      ((y * w + x) * 4 + 3) (src.getD ((y * w + x) * 4 + 3) 0))

/-- The sharpen pass (src/unnamed/part_000:104-129): the output buffer
comes from `createImageData(w, h)` and therefore starts as all zeroes
(transparent black); the loops `1 ≤ y < h-1`, `1 ≤ x < w-1` write only
interior pixels, and `putImageData` then replaces the whole canvas with
this buffer — border pixels included. -/
def sharpenList (w h : ℕ) (src : List ℕ) : List ℕ :=
  (List.range' 1 (h - 2)).foldl (fun dst y =>
    (List.range' 1 (w - 2)).foldl (fun dst x => writePixel w src dst x y) dst)
    (List.replicate (4 * w * h) 0)

/-- The pixel-level part of `preprocessCanvas`: binarization, then the
optional sharpen convolution. -/
def preprocessPixels (cfg : PreCfg) (w h : ℕ) (src : List ℕ) : List ℕ :=
  let bin := binarizePixels cfg src
  if cfg.sharpen then sharpenList w h bin else bin

/-! ## OCR scoring (src/unnamed/part_000:135-142) -/

/-- The whitespace characters removed by `String.prototype.trim`
(restricted to the ASCII range; the engine's OCR text is ASCII-ish). -/
def isWsChar (c : Char) : Bool :=
  c == ' ' || c == '\t' || c == '\n' || c == '\r' || c == '\x0b' || c == '\x0c'

/-- `trimStart`. -/
def trimL (l : List Char) : List Char := l.dropWhile isWsChar

/-- `trimEnd`. -/
def trimR (l : List Char) : List Char := (l.reverse.dropWhile isWsChar).reverse

/-- `String.prototype.trim`. -/
def jsTrim (l : List Char) : List Char := trimR (trimL l)

/-- `/[A-Za-z]/` (codes 65-90 and 97-122). -/
def isLetterChar (c : Char) : Bool :=
  (65 ≤ c.toNat && c.toNat ≤ 90) || (97 ≤ c.toNat && c.toNat ≤ 122)

/-- The Unicode replacement glyph `�` counted by `/[�]/g`. -/
def replChar : Char := Char.ofNat 0xFFFD

/-- A plain alphanumeric character. -/
def isAlnumChar (c : Char) : Bool := isLetterChar c || isDigitChar c

/-- `scoreOcrText` (src/unnamed/part_000:135-142), on the character list
of the text: `letters + digits - 5*bad + min(200, length/5)` of the
trimmed text, and `0` for empty/whitespace-only text. -/
def scoreOcrText (l : List Char) : ℚ :=
  let t := jsTrim l
  if t = [] then 0
  else
    (t.countP isLetterChar : ℚ) + (t.countP isDigitChar : ℚ)
      - 5 * (t.countP (fun c => c == replChar) : ℚ)
      + min 200 ((t.length : ℚ) / 5)

/-! ## TIFF document assembly (src/unnamed/part_000:225-299)

The external decoder (`UTIF`) and the recognition engine are
collaborators: a frame is modelled by the dimensions and pixel buffer the
decoder reports for it together with the text the recognition pass would
produce for it.  `width`/`height` are `Option ℕ` (`none` = the `undefined`
of a malformed IFD; `some 0` = an explicit zero), so the JS falsy test
`!w` is `none` or `some 0`. -/

structure TiffFrame where
  width : Option ℕ
  height : Option ℕ
  rgba : List ℕ
  text : String

/-- The errors `ocrTiff` throws per document (the `UTIF` availability
checks are import-time concerns, not per-document ones). -/
inductive TiffErr where
  | noPages : TiffErr
  | invalidDims : ℕ → TiffErr
  | emptyPixels : ℕ → TiffErr

/-- JS falsiness of a decoded dimension. -/
def falsyDim : Option ℕ → Bool
  | none => true
  | some 0 => true
  | some _ => false

/-- A frame on which the per-frame loop throws. -/
def badFrame (fr : TiffFrame) : Bool :=
  falsyDim fr.width || falsyDim fr.height || fr.rgba.isEmpty

/-- Which error the loop throws for a bad frame, carrying the 1-based
page number it interpolates into the message (lines 266-276). -/
def frameErr (page : ℕ) (fr : TiffFrame) : TiffErr :=
  if falsyDim fr.width || falsyDim fr.height then .invalidDims page
  else .emptyPixels page

/-- `text.trim()` for the collected page text. -/
def trimStr (s : String) : String := String.mk (jsTrim s.toList)

/-- The frame loop of `ocrTiff` (lines 255-296): 0-based counter `i`,
accumulated page texts `acc`; a bad frame aborts the whole document. -/
def ocrTiffGo : ℕ → List TiffFrame → List String → Except TiffErr (List String)
  | _, [], acc => .ok acc
  | i, fr :: rest, acc =>
    if badFrame fr then .error (frameErr (i + 1) fr)
    else ocrTiffGo (i + 1) rest (acc ++ [trimStr fr.text])

/-- The literal page separator (line 298). -/
def pageBreak : String := "\n\n--- PAGE BREAK ---\n\n"

/-- `allText.filter(Boolean).join(...)`: empty page texts are dropped. -/
def joinPages (ts : List String) : String :=
  String.intercalate pageBreak (ts.filter (fun s => s != ""))

/-- `ocrTiff` (src/unnamed/part_000:225-299) over the decoded frames:
no frames is an error; otherwise run the frame loop and join. -/
def ocrTiff (frames : List TiffFrame) : Except TiffErr String :=
  if frames.isEmpty then .error .noPages
  else (ocrTiffGo 0 frames []).map joinPages

/-- A repaired triple that the fix step of a second pass leaves alone:
either incomplete or consistent within tolerance `0.05`. -/
def tripleConsistent (t : Option ℚ × Option ℚ × Option ℚ) : Prop :=
  match t with
  | (some q, some u, some a) => |round2q (q * u) - a| ≤ 1 / 20
  | _ => True

/-- The shapes `repairTriple` can actually output: a complete triple,
an incomplete one with `amount` missing, or an `amount`-only / zero
degenerate form. -/
def goodShape (t : Option ℚ × Option ℚ × Option ℚ) : Prop :=
  match t with
  | (some _, some _, none) => False
  | (some qq, none, some _) => qq = 0
  | (none, some uu, some _) => uu = 0
  | _ => True

/-- The consistency condition on a repaired item, as read back from its
object fields: either one of the three numeric fields is `null`, or the
stored `round2(qty*unit)` is within `0.05` of the stored amount. -/
def itemConsistent (y : JVal) : Prop :=
  tripleConsistent (toNumber (itemGet y "qty"),
    toNumber (itemGet y "unit_price"), toNumber (itemGet y "amount"))

/-- The line items of a (reconciled) record value. -/
def outItems (v : JVal) : List JVal :=
  match v with
  | .vObj f => rawItems f
  | _ => []

/-- Observation used by concrete counterexamples: the parsed `qty` field
of the `i`-th line item of a reconciliation result. -/
def qtyOfItem (e : Except JErr JVal) (i : ℕ) : Option ℚ :=
  match e with
  | .ok v => toNumber (itemGet ((outItems v).getD i .vNull) "qty")
  | .error _ => none

/-- The record `{line_items: [{qty: 199, unit_price: 1, amount: 20.90}]}`
on which `reconcile` is not idempotent. -/
def cexIdemRecord : JVal :=
  .vObj [("line_items", .vArr [.vObj [("qty", .vNum 199),
    ("unit_price", .vNum 1), ("amount", .vNum (209 / 10))]])]

/-- Observation for item-level examples: the stored `qty` value of a
repaired item. -/
def itemQtyOf (e : Except JErr JVal) : Option JVal :=
  match e with
  | .ok y => some (itemGet y "qty")
  | .error _ => none

/-- The default-ish preprocessing options with sharpening enabled
(`contrast 35`, `threshold 165`, grayscale, no invert). -/
def cexSharpenCfg : PreCfg := ⟨35, 165, true, true, false⟩

/-- A 3x3 all-white RGBA bitmap (every byte 255). -/
def whitePixels : List ℕ := List.replicate 36 255

/-- The inputs on which `reconcileMath` cannot throw: every element of a
`line_items` array must not be `null`/`undefined` (property access on
those throws a `TypeError` in JS). -/
def goodItems (v : JVal) : Prop :=
  match v with
  | .vObj f => ∀ it ∈ rawItems f, it ≠ .vNull ∧ it ≠ .vUndef
  | _ => True

/-! ## Basic lemmas about the embedding -/

theorem toNumber_oj (o : Option ℚ) : toNumber (oj o) = o := by
  cases o <;> rfl

theorem round2q_idem (x : ℚ) : round2q (round2q x) = round2q x := by
  unfold round2q
  have h : ((jsRound ((x + epsQ) * 100) : ℚ) / 100 + epsQ) * 100
      = (jsRound ((x + epsQ) * 100) : ℚ) + (epsQ * 100 + 0) := by ring
  rw [h]
  unfold jsRound
  rw [add_assoc, add_assoc, Int.floor_int_add]
  norm_num [epsQ]

theorem round2_round2 (o : Option ℚ) : round2 (round2 o) = round2 o := by
  cases o <;> simp [round2, round2q_idem]

/-- `round2q x` deviates from `x` by at most half a cent plus the epsilon
nudge. -/
theorem round2q_close (x : ℚ) : |round2q x - x| ≤ 1 / 200 + epsQ := by
  have h1 : (⌊(x + epsQ) * 100 + 1 / 2⌋ : ℚ) ≤ (x + epsQ) * 100 + 1 / 2 :=
    Int.floor_le _
  have h2 : (x + epsQ) * 100 + 1 / 2 - 1 < (⌊(x + epsQ) * 100 + 1 / 2⌋ : ℚ) :=
    Int.sub_one_lt_floor _
  have he : (0 : ℚ) < epsQ := by norm_num [epsQ]
  unfold round2q jsRound
  rw [abs_sub_le_iff]
  constructor <;> linarith

theorem epsQ_pos : (0 : ℚ) < epsQ := by norm_num [epsQ]

theorem epsQ_small : epsQ ≤ 1 / 1000 := by norm_num [epsQ]

theorem getF_setF_self (l : Fields) (k : String) (v : JVal) :
    getF (setF l k v) k = v := by
  induction l with
  | nil => simp [setF, getF]
  | cons p rest ih =>
    obtain ⟨k', w⟩ := p
    by_cases h : k' = k
    · simp [setF, h, getF]
    · simp [setF, h, getF, ih]

theorem getF_setF_ne (l : Fields) (k k' : String) (v : JVal) (h : k' ≠ k) :
    getF (setF l k v) k' = getF l k' := by
  induction l with
  | nil => simp [setF, getF, Ne.symm h]
  | cons p rest ih =>
    obtain ⟨k0, w⟩ := p
    by_cases h0 : k0 = k
    · subst h0
      simp [setF, getF, Ne.symm h]
    · simp only [setF, if_neg h0, getF]
      by_cases h1 : k0 = k'
      · simp [h1]
      · simp [h1, ih]

/-- The key just written is present afterwards. -/
theorem mem_keys_setF_self (l : Fields) (k : String) (v : JVal) :
    k ∈ (setF l k v).map Prod.fst := by
  induction l with
  | nil => simp [setF]
  | cons p rest ih =>
    obtain ⟨k', w⟩ := p
    by_cases h : k' = k
    · simp [setF, h]
    · simp only [setF, if_neg h, List.map_cons, List.mem_cons]
      exact Or.inr ih

/-- Writing another key never removes a present key. -/
theorem mem_keys_setF_of_mem (l : Fields) (k k' : String) (v : JVal)
    (h : k ∈ l.map Prod.fst) : k ∈ (setF l k' v).map Prod.fst := by
  induction l with
  | nil => simp at h
  | cons p rest ih =>
    obtain ⟨k0, w⟩ := p
    by_cases h0 : k0 = k'
    · simpa [setF, h0] using h
    · simp only [List.map_cons, List.mem_cons] at h
      rcases h with h | h
      · simp [setF, if_neg h0, h]
      · simp only [setF, if_neg h0, List.map_cons, List.mem_cons]
        exact Or.inr (ih h)

/-- Rewriting a present key with the value it already reads back is a
no-op (JS assignment of the identical value). -/
theorem setF_noop (l : Fields) (k : String) (v : JVal)
    (hmem : k ∈ l.map Prod.fst) (hget : getF l k = v) : setF l k v = l := by
  induction l with
  | nil => simp at hmem
  | cons p rest ih =>
    obtain ⟨k0, w⟩ := p
    by_cases h0 : k0 = k
    · subst h0
      have hw : w = v := by simpa [getF] using hget
      simp [setF, hw]
    · simp only [List.map_cons, List.mem_cons] at hmem
      rcases hmem with h | h
      · exact absurd h.symm h0
      · simp only [getF, if_neg h0] at hget
        simp [setF, if_neg h0, ih h hget]

theorem coalesceDesc_idem (v : JVal) : coalesceDesc (coalesceDesc v) = coalesceDesc v := by
  cases v <;> rfl

theorem coalesceDesc_ne_undef (v : JVal) : coalesceDesc v ≠ .vUndef := by
  cases v <;> simp [coalesceDesc]

theorem itemGet_mkItem_pos (p d : JVal) (q u a : Option ℚ) :
    itemGet (mkItem p d q u a) "product_or_service" = p := rfl

theorem itemGet_mkItem_desc (p d : JVal) (q u a : Option ℚ) :
    itemGet (mkItem p d q u a) "description" = d := rfl

theorem itemGet_mkItem_qty (p d : JVal) (q u a : Option ℚ) :
    itemGet (mkItem p d q u a) "qty" = oj q := rfl

theorem itemGet_mkItem_unit (p d : JVal) (q u a : Option ℚ) :
    itemGet (mkItem p d q u a) "unit_price" = oj u := rfl

theorem itemGet_mkItem_amount (p d : JVal) (q u a : Option ℚ) :
    itemGet (mkItem p d q u a) "amount" = oj a := rfl

/-- `repairItem` on a non-nullish value, unfolded. -/
theorem repairItem_eq (it : JVal) (h1 : it ≠ .vNull) (h2 : it ≠ .vUndef) :
    repairItem it =
      .ok (mkItem (coalesceDesc (itemGet it "product_or_service"))
            (coalesceDesc (itemGet it "description"))
            (repairTriple (toNumber (itemGet it "qty"))
              (round2 (toNumber (itemGet it "unit_price")))
              (round2 (toNumber (itemGet it "amount")))).1
            (repairTriple (toNumber (itemGet it "qty"))
              (round2 (toNumber (itemGet it "unit_price")))
              (round2 (toNumber (itemGet it "amount")))).2.1
            (repairTriple (toNumber (itemGet it "qty"))
              (round2 (toNumber (itemGet it "unit_price")))
              (round2 (toNumber (itemGet it "amount")))).2.2) := by
  cases it <;> first | rfl | exact absurd rfl h1 | exact absurd rfl h2

/-- `repairItem` succeeds exactly on non-nullish values. -/
theorem repairItem_ok (it : JVal) (h1 : it ≠ .vNull) (h2 : it ≠ .vUndef) :
    ∃ y, repairItem it = .ok y :=
  ⟨_, repairItem_eq it h1 h2⟩

/-! ## Fixpoint analysis of the per-item repair

The second application of `reconcileMath` feeds each repaired item back
through `repairTriple`.  The lemmas below characterize when that second
pass is the identity: always, except when the repaired triple is complete
but still fails the `0.05` consistency check (in which case the fix step
can fire again — see the idempotence counterexample). -/

theorem approxQ_true_iff (a b tol : ℚ) : approxQ a b tol = true ↔ |a - b| ≤ tol := by
  simp [approxQ]

theorem fillAmt_amt_some (q u : Option ℚ) (a : ℚ) :
    fillAmt q u (some a) = some a := by
  cases q <;> cases u <;> rfl

theorem fillAmt_eq_none (q u a : Option ℚ) (h : fillAmt q u a = none) :
    a = none ∧ (q = none ∨ u = none) := by
  cases a <;> cases q <;> cases u <;> simp_all [fillAmt]

theorem fillUnit_amt_none (q u : Option ℚ) : fillUnit q none u = u := by
  cases q <;> cases u <;> rfl

theorem fillUnit_unit_some (q a0 : Option ℚ) (u : ℚ) :
    fillUnit q a0 (some u) = some u := by
  cases q <;> cases a0 <;> rfl

theorem fillUnit_eq_none (q0 u0 : Option ℚ) (a : ℚ)
    (h : fillUnit q0 (some a) u0 = none) :
    u0 = none ∧ (q0 = none ∨ q0 = some 0) := by
  cases u0 with
  | some u => rw [fillUnit_unit_some] at h; simp at h
  | none =>
    refine ⟨rfl, ?_⟩
    cases q0 with
    | none => exact Or.inl rfl
    | some q =>
      simp only [fillUnit] at h
      split_ifs at h with h0
      exact Or.inr (by rw [h0])

theorem fillQty_amt_none (u q : Option ℚ) : fillQty u none q = q := by
  cases u <;> cases q <;> rfl

theorem fillQty_unit_none (a q : Option ℚ) : fillQty none a q = q := by
  cases a <;> cases q <;> rfl

theorem fillQty_qty_some (u a : Option ℚ) (q : ℚ) :
    fillQty u a (some q) = some q := by
  cases u <;> cases a <;> rfl

theorem fillQty_eq_none (u1 q0 : Option ℚ) (a : ℚ)
    (h : fillQty u1 (some a) q0 = none) :
    q0 = none ∧ (u1 = none ∨ u1 = some 0) := by
  cases q0 with
  | some q => rw [fillQty_qty_some] at h; simp at h
  | none =>
    refine ⟨rfl, ?_⟩
    cases u1 with
    | none => exact Or.inl rfl
    | some uu =>
      simp only [fillQty] at h
      split_ifs at h with h0
      exact Or.inr (by rw [h0])

theorem fixQtyUnit_amt_none (q u : Option ℚ) : fixQtyUnit q u none = (q, u) := by
  cases q <;> cases u <;> rfl

theorem fixQtyUnit_qty_none (u a : Option ℚ) : fixQtyUnit none u a = (none, u) := by
  cases u <;> cases a <;> rfl

theorem fixQtyUnit_unit_none (q a : Option ℚ) : fixQtyUnit q none a = (q, none) := by
  cases q <;> cases a <;> rfl

theorem fixQtyUnit_all_some (qy u a : ℚ) :
    ∃ x y, fixQtyUnit (some qy) (some u) (some a) = (some x, some y) := by
  simp only [fixQtyUnit]
  split_ifs <;> exact ⟨_, _, rfl⟩

theorem fixQtyUnit_consistent (qy u a : ℚ) (h : |round2q (qy * u) - a| ≤ 1 / 20) :
    fixQtyUnit (some qy) (some u) (some a) = (some qy, some u) := by
  simp only [fixQtyUnit]
  rw [if_pos ((approxQ_true_iff _ _ _).2 h)]

/-- `repairTriple`, with the four stages spelled out. -/
theorem repairTriple_eq (q0 u0 a0 : Option ℚ) :
    repairTriple q0 u0 a0 =
      ((fixQtyUnit (fillQty (fillUnit q0 (fillAmt q0 u0 a0) u0) (fillAmt q0 u0 a0) q0)
          (fillUnit q0 (fillAmt q0 u0 a0) u0) (fillAmt q0 u0 a0)).1,
       (fixQtyUnit (fillQty (fillUnit q0 (fillAmt q0 u0 a0) u0) (fillAmt q0 u0 a0) q0)
          (fillUnit q0 (fillAmt q0 u0 a0) u0) (fillAmt q0 u0 a0)).2,
       fillAmt q0 u0 a0) := rfl

/-- Every output of `repairTriple` has one of the good shapes. -/
theorem repairTriple_goodShape (q0 u0 a0 : Option ℚ) :
    goodShape (repairTriple q0 u0 a0) := by
  rw [repairTriple_eq]
  rcases ha : fillAmt q0 u0 a0 with _ | a
  · obtain ⟨ha0, hqu⟩ := fillAmt_eq_none _ _ _ ha
    rw [fillUnit_amt_none, fillQty_amt_none, fixQtyUnit_amt_none]
    rcases hqu with h | h <;> rw [h] <;> cases u0 <;> cases q0 <;> trivial
  · rcases hq1 : fillQty (fillUnit q0 (some a) u0) (some a) q0 with _ | qq
    · rw [fixQtyUnit_qty_none]
      obtain ⟨hq0, hu1⟩ := fillQty_eq_none _ _ _ hq1
      rcases hu1 with h | h <;> rw [h] <;> trivial
    · rcases hu1 : fillUnit q0 (some a) u0 with _ | uu
      · rw [fixQtyUnit_unit_none]
        obtain ⟨hu0, hq0⟩ := fillUnit_eq_none _ _ _ hu1
        rw [hu1, fillQty_unit_none] at hq1
        rcases hq0 with h | h
        · rw [h] at hq1; cases hq1
        · rw [h] at hq1
          cases hq1
          trivial
      · obtain ⟨x, y, hxy⟩ := fixQtyUnit_all_some qq uu a
        rw [hxy]
        trivial

/-- A good-shaped, consistent triple is a fixpoint of `repairTriple`. -/
theorem repairTriple_id_of_shape (t : Option ℚ × Option ℚ × Option ℚ)
    (hs : goodShape t) (hc : tripleConsistent t) :
    repairTriple t.1 t.2.1 t.2.2 = t := by
  obtain ⟨q, u, a⟩ := t
  show repairTriple q u a = (q, u, a)
  rw [repairTriple_eq]
  rcases a with _ | a
  · have ha : fillAmt q u none = none := by
      rcases q with _ | qq
      · cases u <;> rfl
      · rcases u with _ | uu
        · rfl
        · exact hs.elim
    rw [ha, fillUnit_amt_none, fillQty_amt_none, fixQtyUnit_amt_none]
  · rcases q with _ | qq
    · rcases u with _ | uu
      · rw [fillAmt_amt_some]
        have h1 : fillUnit none (some a) none = none := rfl
        rw [h1, fillQty_unit_none, fixQtyUnit_qty_none]
      · have huu : uu = 0 := hs
        subst huu
        rw [fillAmt_amt_some, fillUnit_unit_some]
        have h2 : fillQty (some 0) (some a) none = none := by
          simp [fillQty]
        rw [h2, fixQtyUnit_qty_none]
    · rcases u with _ | uu
      · have hqq : qq = 0 := hs
        subst hqq
        rw [fillAmt_amt_some]
        have h1 : fillUnit (some 0) (some a) none = none := by
          simp [fillUnit]
        rw [h1, fillQty_unit_none, fixQtyUnit_unit_none]
      · have hcons : |round2q (qq * uu) - a| ≤ 1 / 20 := hc
        rw [fillAmt_amt_some, fillUnit_unit_some, fillQty_qty_some,
          fixQtyUnit_consistent _ _ _ hcons]

/-! ## Stability of the repaired values under re-rounding -/

theorem round2_some_round2q (x : ℚ) : round2 (some (round2q x)) = some (round2q x) := by
  simp [round2, round2q_idem]

theorem round2_fillAmt (q u a : Option ℚ) (ha : round2 a = a) :
    round2 (fillAmt q u a) = fillAmt q u a := by
  cases a <;> cases q <;> cases u <;> simp_all [fillAmt, round2, round2q_idem]

theorem round2_fillUnit (q a u : Option ℚ) (hu : round2 u = u) :
    round2 (fillUnit q a u) = fillUnit q a u := by
  cases u <;> cases q <;> cases a <;> simp only [fillUnit] <;>
    (try split_ifs) <;> simp_all [round2, round2q_idem]

theorem round2_fixQtyUnit_snd (q u a : Option ℚ) (hu : round2 u = u) :
    round2 (fixQtyUnit q u a).2 = (fixQtyUnit q u a).2 := by
  cases q <;> cases u <;> cases a <;> simp only [fixQtyUnit] <;>
    (try split_ifs) <;> simp_all [round2, round2q_idem]

theorem repairTriple_stable_unit (q0 u0 a0 : Option ℚ) (hu : round2 u0 = u0) :
    round2 (repairTriple q0 u0 a0).2.1 = (repairTriple q0 u0 a0).2.1 := by
  rw [repairTriple_eq]
  exact round2_fixQtyUnit_snd _ _ _ (round2_fillUnit _ _ _ hu)

theorem repairTriple_stable_amt (q0 u0 a0 : Option ℚ) (ha : round2 a0 = a0) :
    round2 (repairTriple q0 u0 a0).2.2 = (repairTriple q0 u0 a0).2.2 := by
  rw [repairTriple_eq]
  exact round2_fillAmt _ _ _ ha

/-! ## Idempotence of the item repair on consistent outputs -/

theorem repairItem_idem (it y : JVal) (h : repairItem it = .ok y)
    (hc : itemConsistent y) : repairItem y = .ok y := by
  have h1 : it ≠ .vNull := by rintro rfl; simp [repairItem] at h
  have h2 : it ≠ .vUndef := by rintro rfl; simp [repairItem] at h
  rw [repairItem_eq it h1 h2] at h
  set q0 := toNumber (itemGet it "qty") with hq0
  set u0 := round2 (toNumber (itemGet it "unit_price")) with hu0
  set a0 := round2 (toNumber (itemGet it "amount")) with ha0
  set p := coalesceDesc (itemGet it "product_or_service") with hp
  set d := coalesceDesc (itemGet it "description") with hd
  have hy : y = mkItem p d (repairTriple q0 u0 a0).1 (repairTriple q0 u0 a0).2.1
      (repairTriple q0 u0 a0).2.2 := by
    cases h; rfl
  have hyobj : y ≠ .vNull ∧ y ≠ .vUndef := by
    rw [hy]; exact ⟨by simp [mkItem], by simp [mkItem]⟩
  rw [repairItem_eq y hyobj.1 hyobj.2, hy]
  rw [itemGet_mkItem_pos, itemGet_mkItem_desc, itemGet_mkItem_qty,
    itemGet_mkItem_unit, itemGet_mkItem_amount, toNumber_oj, toNumber_oj, toNumber_oj]
  have hstu : round2 (repairTriple q0 u0 a0).2.1 = (repairTriple q0 u0 a0).2.1 :=
    repairTriple_stable_unit _ _ _ (by rw [hu0, round2_round2])
  have hsta : round2 (repairTriple q0 u0 a0).2.2 = (repairTriple q0 u0 a0).2.2 :=
    repairTriple_stable_amt _ _ _ (by rw [ha0, round2_round2])
  rw [hstu, hsta]
  have hcc : tripleConsistent (repairTriple q0 u0 a0) := by
    have := hc
    rw [hy] at this
    unfold itemConsistent at this
    rw [itemGet_mkItem_qty, itemGet_mkItem_unit, itemGet_mkItem_amount,
      toNumber_oj, toNumber_oj, toNumber_oj] at this
    exact this
  have hfix := repairTriple_id_of_shape (repairTriple q0 u0 a0)
    (repairTriple_goodShape q0 u0 a0) hcc
  rw [hfix, coalesceDesc_idem, coalesceDesc_idem]

/-! ## `mapME` lemmas -/

theorem mapME_id (g : JVal → Except JErr JVal) (l : List JVal)
    (h : ∀ x ∈ l, g x = .ok x) : mapME g l = .ok l := by
  induction l with
  | nil => rfl
  | cons x xs ih =>
    have hx := h x (List.mem_cons_self x xs)
    have hxs := ih (fun z hz => h z (List.mem_cons_of_mem x hz))
    simp [mapME, hx, hxs]

theorem mapME_mem (g : JVal → Except JErr JVal) (l l' : List JVal)
    (h : mapME g l = .ok l') : ∀ y ∈ l', ∃ x ∈ l, g x = .ok y := by
  induction l generalizing l' with
  | nil =>
    cases h
    intro y hy
    exact absurd hy (List.not_mem_nil y)
  | cons x xs ih =>
    intro y hy
    rcases hgx : g x with e | z
    · rw [mapME, hgx] at h; cases h
    · rw [mapME, hgx] at h
      rcases hrest : mapME g xs with e | zs
      · rw [hrest] at h; cases h
      · rw [hrest] at h
        cases h
        rcases List.mem_cons.1 hy with rfl | hmem
        · exact ⟨x, List.mem_cons_self x xs, hgx⟩
        · obtain ⟨w, hw, hgw⟩ := ih zs hrest y hmem
          exact ⟨w, List.mem_cons_of_mem x hw, hgw⟩

theorem mapME_ok_of_all (g : JVal → Except JErr JVal) (l : List JVal)
    (h : ∀ x ∈ l, ∃ y, g x = .ok y) : ∃ l', mapME g l = .ok l' := by
  induction l with
  | nil => exact ⟨[], rfl⟩
  | cons x xs ih =>
    obtain ⟨y, hy⟩ := h x (List.mem_cons_self x xs)
    obtain ⟨l', hl'⟩ := ih (fun z hz => h z (List.mem_cons_of_mem x hz))
    exact ⟨y :: l', by simp [mapME, hy, hl']⟩

/-! ## Reading the written-back record -/

theorem getF_outFields_subtotal (f : Fields) (its : List JVal) :
    getF (outFields f its) "subtotal" = oj (subDerived f its) := by
  unfold outFields
  rw [getF_setF_ne _ _ _ _ (by decide), getF_setF_ne _ _ _ _ (by decide),
    getF_setF_ne _ _ _ _ (by decide), getF_setF_ne _ _ _ _ (by decide),
    getF_setF_self]

theorem getF_outFields_tax_rate (f : Fields) (its : List JVal) :
    getF (outFields f its) "tax_rate" = oj (rateNorm f) := by
  unfold outFields
  rw [getF_setF_ne _ _ _ _ (by decide), getF_setF_ne _ _ _ _ (by decide),
    getF_setF_ne _ _ _ _ (by decide), getF_setF_self]

theorem getF_outFields_tax_amount (f : Fields) (its : List JVal) :
    getF (outFields f its) "tax_amount" = oj (taxDerived f its) := by
  unfold outFields
  rw [getF_setF_ne _ _ _ _ (by decide), getF_setF_ne _ _ _ _ (by decide),
    getF_setF_self]

theorem getF_outFields_total (f : Fields) (its : List JVal) :
    getF (outFields f its) "total" = oj (totDerived f its) := by
  unfold outFields
  rw [getF_setF_ne _ _ _ _ (by decide), getF_setF_self]

theorem getF_outFields_line_items (f : Fields) (its : List JVal) :
    getF (outFields f its) "line_items" = .vArr its := by
  unfold outFields
  rw [getF_setF_self]

theorem getF_outFields_other (f : Fields) (its : List JVal) (k : String)
    (h1 : k ≠ "subtotal") (h2 : k ≠ "tax_rate") (h3 : k ≠ "tax_amount")
    (h4 : k ≠ "total") (h5 : k ≠ "line_items") :
    getF (outFields f its) k = getF f k := by
  unfold outFields
  rw [getF_setF_ne _ _ _ _ h5, getF_setF_ne _ _ _ _ h4,
    getF_setF_ne _ _ _ _ h3, getF_setF_ne _ _ _ _ h2, getF_setF_ne _ _ _ _ h1]

/-! ## Stability and fixpoint lemmas for the document-level derivation -/

theorem round2_subNorm (f : Fields) : round2 (subNorm f) = subNorm f :=
  round2_round2 _

theorem round2_taxNorm (f : Fields) : round2 (taxNorm f) = taxNorm f :=
  round2_round2 _

theorem round2_totNorm (f : Fields) : round2 (totNorm f) = totNorm f :=
  round2_round2 _

theorem round2_subDerived (f : Fields) (its : List JVal) :
    round2 (subDerived f its) = subDerived f its := by
  unfold subDerived subStep
  cases hs : subNorm f with
  | none =>
    show round2 (if sumItemsQ its ≠ 0 then some (sumItemsQ its) else none)
      = (if sumItemsQ its ≠ 0 then some (sumItemsQ its) else none)
    split_ifs with h1
    · simp [round2, sumItemsQ, round2q_idem]
    · rfl
  | some q =>
    have h2 := round2_subNorm f
    rw [hs] at h2
    exact h2

theorem round2_taxDerived (f : Fields) (its : List JVal) :
    round2 (taxDerived f its) = taxDerived f its := by
  unfold taxDerived taxStep
  have hq := round2_taxNorm f
  rcases h1 : taxNorm f with _ | q <;> rw [h1] at hq <;>
    rcases subDerived f its with _ | s <;>
    rcases rateNorm f with _ | r <;>
    simp_all [round2, round2q_idem]

theorem round2_totDerived (f : Fields) (its : List JVal) :
    round2 (totDerived f its) = totDerived f its := by
  unfold totDerived totStep
  have hq := round2_totNorm f
  rcases h1 : totNorm f with _ | q <;> rw [h1] at hq <;>
    rcases subDerived f its with _ | s <;>
    rcases taxDerived f its with _ | t <;>
    simp_all [round2, round2q_idem]

theorem subNorm_outFields (f : Fields) (its : List JVal) :
    subNorm (outFields f its) = subDerived f its := by
  unfold subNorm
  rw [getF_outFields_subtotal, toNumber_oj, round2_subDerived]

theorem rateNorm_outFields (f : Fields) (its : List JVal) :
    rateNorm (outFields f its) = rateNorm f := by
  unfold rateNorm
  rw [getF_outFields_tax_rate, toNumber_oj]
  rfl

theorem taxNorm_outFields (f : Fields) (its : List JVal) :
    taxNorm (outFields f its) = taxDerived f its := by
  unfold taxNorm
  rw [getF_outFields_tax_amount, toNumber_oj, round2_taxDerived]

theorem totNorm_outFields (f : Fields) (its : List JVal) :
    totNorm (outFields f its) = totDerived f its := by
  unfold totNorm
  rw [getF_outFields_total, toNumber_oj, round2_totDerived]

theorem rawItems_outFields (f : Fields) (its : List JVal) :
    rawItems (outFields f its) = its := by
  unfold rawItems
  rw [getF_outFields_line_items]

theorem subStep_eq_none (s0 : Option ℚ) (sum : ℚ) (h : subStep s0 sum = none) :
    s0 = none ∧ sum = 0 := by
  cases s0 with
  | none =>
    refine ⟨rfl, ?_⟩
    unfold subStep at h
    split_ifs at h with h1
    exact not_not.1 (fun hh => h1 (by simpa using hh))
  | some q => simp [subStep] at h

theorem taxStep_some (q : ℚ) (s r : Option ℚ) : taxStep (some q) s r = some q := by
  cases s <;> cases r <;> rfl

theorem taxStep_eq_none (t0 s r : Option ℚ) (h : taxStep t0 s r = none) :
    t0 = none ∧ (s = none ∨ r = none) := by
  cases t0 <;> cases s <;> cases r <;> simp_all [taxStep]

theorem totStep_some (q : ℚ) (s ta : Option ℚ) : totStep (some q) s ta = some q := by
  cases s <;> cases ta <;> rfl

theorem totStep_eq_none (t0 s ta : Option ℚ) (h : totStep t0 s ta = none) :
    t0 = none ∧ (s = none ∨ ta = none) := by
  cases t0 <;> cases s <;> cases ta <;> simp_all [totStep]

theorem subDerived_outFields (f : Fields) (its : List JVal) :
    subDerived (outFields f its) its = subDerived f its := by
  show subStep (subNorm (outFields f its)) (sumItemsQ its) = subDerived f its
  rw [subNorm_outFields]
  cases hsd : subDerived f its with
  | some q => rfl
  | none =>
    have hsd2 : subStep (subNorm f) (sumItemsQ its) = none := hsd
    obtain ⟨hs0, hsum⟩ := subStep_eq_none _ _ hsd2
    show subStep none (sumItemsQ its) = none
    rw [hsum]
    simp [subStep]

theorem taxDerived_outFields (f : Fields) (its : List JVal) :
    taxDerived (outFields f its) its = taxDerived f its := by
  show taxStep (taxNorm (outFields f its)) (subDerived (outFields f its) its)
    (rateNorm (outFields f its)) = taxDerived f its
  rw [taxNorm_outFields, subDerived_outFields, rateNorm_outFields]
  cases htd : taxDerived f its with
  | some q => exact taxStep_some _ _ _
  | none =>
    have htd2 : taxStep (taxNorm f) (subDerived f its) (rateNorm f) = none := htd
    obtain ⟨ht0, hor⟩ := taxStep_eq_none _ _ _ htd2
    rcases hor with h | h <;> rw [h]
    · cases rateNorm f <;> rfl
    · cases subDerived f its <;> rfl

theorem totDerived_outFields (f : Fields) (its : List JVal) :
    totDerived (outFields f its) its = totDerived f its := by
  show totStep (totNorm (outFields f its)) (subDerived (outFields f its) its)
    (taxDerived (outFields f its) its) = totDerived f its
  rw [totNorm_outFields, subDerived_outFields, taxDerived_outFields]
  cases htd : totDerived f its with
  | some q => exact totStep_some _ _ _
  | none =>
    have htd2 : totStep (totNorm f) (subDerived f its) (taxDerived f its) = none := htd
    obtain ⟨ht0, hor⟩ := totStep_eq_none _ _ _ htd2
    rcases hor with h | h <;> rw [h]
    · cases taxDerived f its <;> rfl
    · cases subDerived f its <;> rfl

/-! ## `reconcileObj` and full idempotence machinery -/

theorem reconcileObj_eq (f : Fields) (its : List JVal)
    (h : mapME repairItem (rawItems f) = .ok its) :
    reconcileObj f = .ok (outFields f its) := by
  unfold reconcileObj
  rw [h]

theorem reconcileObj_inv (f f' : Fields) (h : reconcileObj f = .ok f') :
    ∃ its, mapME repairItem (rawItems f) = .ok its ∧ f' = outFields f its := by
  unfold reconcileObj at h
  cases hm : mapME repairItem (rawItems f) with
  | error e => rw [hm] at h; cases h
  | ok its =>
    rw [hm] at h
    cases h
    exact ⟨its, rfl, rfl⟩

theorem mem_keys_outFields_subtotal (f : Fields) (its : List JVal) :
    "subtotal" ∈ (outFields f its).map Prod.fst := by
  unfold outFields
  exact mem_keys_setF_of_mem _ _ _ _ (mem_keys_setF_of_mem _ _ _ _
    (mem_keys_setF_of_mem _ _ _ _ (mem_keys_setF_of_mem _ _ _ _
      (mem_keys_setF_self _ _ _))))

theorem mem_keys_outFields_tax_rate (f : Fields) (its : List JVal) :
    "tax_rate" ∈ (outFields f its).map Prod.fst := by
  unfold outFields
  exact mem_keys_setF_of_mem _ _ _ _ (mem_keys_setF_of_mem _ _ _ _
    (mem_keys_setF_of_mem _ _ _ _ (mem_keys_setF_self _ _ _)))

theorem mem_keys_outFields_tax_amount (f : Fields) (its : List JVal) :
    "tax_amount" ∈ (outFields f its).map Prod.fst := by
  unfold outFields
  exact mem_keys_setF_of_mem _ _ _ _ (mem_keys_setF_of_mem _ _ _ _
    (mem_keys_setF_self _ _ _))

theorem mem_keys_outFields_total (f : Fields) (its : List JVal) :
    "total" ∈ (outFields f its).map Prod.fst := by
  unfold outFields
  exact mem_keys_setF_of_mem _ _ _ _ (mem_keys_setF_self _ _ _)

theorem mem_keys_outFields_line_items (f : Fields) (its : List JVal) :
    "line_items" ∈ (outFields f its).map Prod.fst := by
  unfold outFields
  exact mem_keys_setF_self _ _ _

/-- Writing the already-final values back a second time changes nothing. -/
theorem outFields_idem (f : Fields) (its : List JVal) :
    outFields (outFields f its) its = outFields f its := by
  show setF (setF (setF (setF (setF (outFields f its)
    "subtotal" (oj (subDerived (outFields f its) its)))
    "tax_rate" (oj (rateNorm (outFields f its))))
    "tax_amount" (oj (taxDerived (outFields f its) its)))
    "total" (oj (totDerived (outFields f its) its)))
    "line_items" (.vArr its) = outFields f its
  rw [subDerived_outFields, rateNorm_outFields, taxDerived_outFields,
    totDerived_outFields]
  rw [setF_noop _ _ _ (mem_keys_outFields_subtotal f its) (getF_outFields_subtotal f its)]
  rw [setF_noop _ _ _ (mem_keys_outFields_tax_rate f its) (getF_outFields_tax_rate f its)]
  rw [setF_noop _ _ _ (mem_keys_outFields_tax_amount f its) (getF_outFields_tax_amount f its)]
  rw [setF_noop _ _ _ (mem_keys_outFields_total f its) (getF_outFields_total f its)]
  rw [setF_noop _ _ _ (mem_keys_outFields_line_items f its) (getF_outFields_line_items f its)]


/-! ## Claim C1 — idempotence of `reconcile` -/

/-- **C1** (amended): `reconcile` is idempotent on every input whose
reconciled output has only *consistent or incomplete* line items: if
`reconcileMath x` succeeds with output `y` and every line item of `y`
either has a `null` among `qty`/`unit_price`/`amount` or satisfies
`|round2(qty*unit_price) - amount| ≤ 0.05`, then `reconcileMath y = y`.
(Unconditional idempotence is false: when a repaired item remains
inconsistent, the fix step can fire again on the second pass and move
`qty` — see the counterexample.) -/
theorem reconcile_idem_on_consistent (x y : JVal)
    (hxy : reconcileMath x = .ok y)
    (hc : ∀ it ∈ outItems y, itemConsistent it) :
    reconcileMath y = .ok y := by
  cases x with
  | vObj f =>
    have hxy2 : Except.map JVal.vObj (reconcileObj f) = Except.ok y := hxy
    cases hro : reconcileObj f with
    | error e =>
      rw [hro] at hxy2
      simp [Except.map] at hxy2
    | ok f' =>
      rw [hro] at hxy2
      simp only [Except.map] at hxy2
      cases hxy2
      obtain ⟨its, hits, rfl⟩ := reconcileObj_inv f f' hro
      have hitems : outItems (JVal.vObj (outFields f its)) = its :=
        rawItems_outFields f its
      have hmap : mapME repairItem its = .ok its := by
        apply mapME_id
        intro z hz
        obtain ⟨x0, hx0, hgx⟩ := mapME_mem _ _ _ hits z hz
        exact repairItem_idem x0 z hgx (hc z (by rw [hitems]; exact hz))
      show Except.map JVal.vObj (reconcileObj (outFields f its))
        = .ok (JVal.vObj (outFields f its))
      rw [reconcileObj_eq (outFields f its) its
        (by rw [rawItems_outFields]; exact hmap)]
      simp only [Except.map]
      rw [outFields_idem]
  | vNull => cases hxy; rfl
  | vUndef => cases hxy; rfl
  | vNum q => cases hxy; rfl
  | vStr s0 => cases hxy; rfl
  | vBool b => cases hxy; rfl
  | vArr l => cases hxy; rfl

/-! ## Evaluation helpers for concrete inputs

The kernel cannot reduce `ℚ` arithmetic (its normalization is blocked on
well-founded `Nat.gcd`), so concrete runs of the engine are evaluated with
`norm_num` through the lemmas below. -/

theorem round2q_eval (x : ℚ) (m : ℤ) (h : ⌊(x + epsQ) * 100 + 1 / 2⌋ = m) :
    round2q x = (m : ℚ) / 100 := by
  rw [round2q, jsRound, h]

theorem jsRound_eval (x : ℚ) (m : ℤ) (h : ⌊x + 1 / 2⌋ = m) : jsRound x = m := h

theorem approxQ_of_le (a b tol : ℚ) (h1 : a - b ≤ tol) (h2 : b - a ≤ tol) :
    approxQ a b tol = true := by
  rw [approxQ_true_iff, abs_sub_le_iff]
  exact ⟨h1, h2⟩

theorem notApproxQ_left (a b tol : ℚ) (h : tol < a - b) :
    ¬(approxQ a b tol = true) := by
  rw [approxQ_true_iff]
  exact fun hh => absurd (le_trans (le_abs_self _) hh) (not_le.2 h)

theorem notApproxQ_right (a b tol : ℚ) (h : tol < b - a) :
    ¬(approxQ a b tol = true) := by
  rw [approxQ_true_iff]
  intro hh
  rw [abs_sub_comm] at hh
  exact absurd (le_trans (le_abs_self _) hh) (not_le.2 h)

theorem abs_lt_of_both (a c : ℚ) (h1 : a < c) (h2 : -a < c) : |a| < c :=
  abs_lt.2 ⟨by linarith, h1⟩

theorem not_abs_lt_left (a c : ℚ) (h : c ≤ a) : ¬(|a| < c) :=
  fun hh => absurd (lt_of_le_of_lt (le_abs_self _) hh) (not_lt.2 h)

theorem not_abs_lt_right (a c : ℚ) (h : c ≤ -a) : ¬(|a| < c) :=
  fun hh => absurd (lt_of_le_of_lt (neg_le_abs _) hh) (not_lt.2 h)

/-- The inconsistency fix, last-resort branch: rewrite `unit_price` to
`round2(amount/qty)`. -/
theorem fixQtyUnit_lastResort (qy u a : ℚ)
    (h1 : ¬(approxQ (round2q (qy * u)) a (1 / 20) = true))
    (h2 : ¬(u ≠ 0 ∧ |a / u - (jsRound (a / u) : ℚ)| < 1 / 20 ∧
      approxQ (round2q ((jsRound (a / u) : ℚ) * u)) a (1 / 10) = true))
    (h3 : ¬(qy = 0)) :
    fixQtyUnit (some qy) (some u) (some a) = (some qy, some (round2q (a / qy))) := by
  simp only [fixQtyUnit]
  rw [if_neg h1, if_neg h2, if_neg h3]

/-- The inconsistency fix, integer-snap branch: adopt `Math.round(amount/unit)`
as the corrected quantity. -/
theorem fixQtyUnit_snap (qy u a : ℚ)
    (h1 : ¬(approxQ (round2q (qy * u)) a (1 / 20) = true))
    (h2 : u ≠ 0 ∧ |a / u - (jsRound (a / u) : ℚ)| < 1 / 20 ∧
      approxQ (round2q ((jsRound (a / u) : ℚ) * u)) a (1 / 10) = true) :
    fixQtyUnit (some qy) (some u) (some a) = (some ((jsRound (a / u) : ℚ)), some u) := by
  simp only [fixQtyUnit]
  rw [if_neg h1, if_pos h2]

theorem r2q_one : round2q 1 = 1 := by
  rw [round2q_eval 1 100 (by norm_num [epsQ])]; norm_num

theorem r2q_209d10 : round2q (209 / 10) = 209 / 10 := by
  rw [round2q_eval _ 2090 (by norm_num [epsQ])]; norm_num

theorem cex_repair1 : repairItem (.vObj [("qty", .vNum 199),
    ("unit_price", .vNum 1), ("amount", .vNum (209 / 10))]) =
    .ok (mkItem .vNull .vNull (some 199) (some (11 / 100)) (some (209 / 10))) := by
  rw [repairItem_eq _ (by simp) (by simp)]
  have e3 : toNumber (itemGet (JVal.vObj [("qty", .vNum 199),
      ("unit_price", .vNum 1), ("amount", .vNum (209 / 10))]) "qty") = some 199 := by
    simp [itemGet, getF, toNumber]
  have e4 : round2 (toNumber (itemGet (JVal.vObj [("qty", .vNum 199),
      ("unit_price", .vNum 1), ("amount", .vNum (209 / 10))]) "unit_price")) = some 1 := by
    simp [itemGet, getF, toNumber, round2, r2q_one]
  have e5 : round2 (toNumber (itemGet (JVal.vObj [("qty", .vNum 199),
      ("unit_price", .vNum 1), ("amount", .vNum (209 / 10))]) "amount")) = some (209 / 10) := by
    simp [itemGet, getF, toNumber, round2, r2q_209d10]
  rw [e3, e4, e5]
  have hfix : fixQtyUnit (some 199) (some 1) (some (209 / 10)) =
      (some 199, some (11 / 100)) := by
    have hq : (209 : ℚ) / 10 / 1 = 209 / 10 := by norm_num
    have hr1 : round2q (199 * 1) = 199 := by
      rw [round2q_eval _ 19900 (by norm_num [epsQ])]; norm_num
    have hn : jsRound ((209 : ℚ) / 10 / 1) = 21 := by
      rw [hq]; exact jsRound_eval _ 21 (by norm_num)
    have hrq : round2q ((209 : ℚ) / 10 / 199) = 11 / 100 := by
      rw [round2q_eval _ 11 (by norm_num [epsQ])]; norm_num
    rw [fixQtyUnit_lastResort]
    · rw [hrq]
    · rw [hr1]
      exact notApproxQ_left _ _ _ (by norm_num)
    · rw [hn]
      rintro ⟨-, habs, -⟩
      exact absurd habs (not_abs_lt_right _ _ (by norm_num))
    · norm_num
  have hT : repairTriple (some 199) (some 1) (some (209 / 10)) =
      (some 199, some (11 / 100), some (209 / 10)) := by
    rw [repairTriple_eq, fillAmt_amt_some, fillUnit_unit_some, fillQty_qty_some, hfix]
  rw [hT]
  simp [itemGet, getF, coalesceDesc, mkItem]

theorem cex_repair2 : repairItem (mkItem .vNull .vNull (some 199) (some (11 / 100))
    (some (209 / 10))) =
    .ok (mkItem .vNull .vNull (some 190) (some (11 / 100)) (some (209 / 10))) := by
  rw [repairItem_eq _ (by simp [mkItem]) (by simp [mkItem])]
  rw [itemGet_mkItem_pos, itemGet_mkItem_desc, itemGet_mkItem_qty,
    itemGet_mkItem_unit, itemGet_mkItem_amount, toNumber_oj, toNumber_oj, toNumber_oj]
  have e4 : round2 (some ((11 : ℚ) / 100)) = some ((11 : ℚ) / 100) := by
    have : round2q (11 / 100) = 11 / 100 := by
      rw [round2q_eval _ 11 (by norm_num [epsQ])]; norm_num
    simp [round2, this]
  have e5 : round2 (some ((209 : ℚ) / 10)) = some ((209 : ℚ) / 10) := by
    simp [round2, r2q_209d10]
  rw [e4, e5]
  have hfix : fixQtyUnit (some 199) (some (11 / 100)) (some (209 / 10)) =
      (some 190, some (11 / 100)) := by
    have hq : (209 : ℚ) / 10 / (11 / 100) = 190 := by norm_num
    have hn : jsRound ((209 : ℚ) / 10 / (11 / 100)) = 190 := by
      rw [hq]; exact jsRound_eval _ 190 (by norm_num)
    have hr1 : round2q (199 * (11 / 100)) = 2189 / 100 := by
      rw [round2q_eval _ 2189 (by norm_num [epsQ])]; norm_num
    have hr2 : round2q (((190 : ℤ) : ℚ) * (11 / 100)) = 209 / 10 := by
      rw [round2q_eval _ 2090 (by norm_num [epsQ])]; norm_num
    rw [fixQtyUnit_snap]
    · rw [hn]; norm_num
    · rw [hr1]
      exact notApproxQ_left _ _ _ (by norm_num)
    · refine ⟨by norm_num, ?_, ?_⟩
      · rw [hn, hq]
        norm_num
      · rw [hn, hr2]
        exact approxQ_of_le _ _ _ (by norm_num) (by norm_num)
  have hT : repairTriple (some 199) (some (11 / 100)) (some (209 / 10)) =
      (some 190, some (11 / 100), some (209 / 10)) := by
    rw [repairTriple_eq, fillAmt_amt_some, fillUnit_unit_some, fillQty_qty_some, hfix]
  rw [hT]
  rfl

theorem qtyOfItem_ok (v : JVal) (i : ℕ) :
    qtyOfItem (.ok v) i = toNumber (itemGet ((outItems v).getD i .vNull) "qty") := rfl

theorem outItems_obj (f : Fields) : outItems (.vObj f) = rawItems f := rfl

/-- **C1** counterexample: on
`{line_items: [{qty: 199, unit_price: 1, amount: 20.90}]}` the first pass
leaves `qty = 199` and rewrites `unit_price` to `0.11` (last-resort
branch), but the triple is still inconsistent, so the second pass snaps
`qty` to `190 = 20.90 / 0.11`: `reconcile (reconcile x) ≠ reconcile x`. -/
theorem reconcile_not_idempotent :
    reconcileTwice cexIdemRecord ≠ reconcileMath cexIdemRecord := by
  have hraw : rawItems [("line_items", .vArr [.vObj [("qty", .vNum 199),
      ("unit_price", .vNum 1), ("amount", .vNum (209 / 10))]])] =
      [.vObj [("qty", .vNum 199), ("unit_price", .vNum 1),
        ("amount", .vNum (209 / 10))]] := by
    simp [rawItems, getF]
  have hm1 : mapME repairItem [JVal.vObj [("qty", .vNum 199), ("unit_price", .vNum 1),
      ("amount", .vNum (209 / 10))]] =
      .ok [mkItem .vNull .vNull (some 199) (some (11 / 100)) (some (209 / 10))] := by
    simp [mapME, cex_repair1]
  have hro1 : reconcileObj [("line_items", .vArr [.vObj [("qty", .vNum 199),
      ("unit_price", .vNum 1), ("amount", .vNum (209 / 10))]])] =
      .ok (outFields [("line_items", .vArr [.vObj [("qty", .vNum 199),
        ("unit_price", .vNum 1), ("amount", .vNum (209 / 10))]])]
        [mkItem .vNull .vNull (some 199) (some (11 / 100)) (some (209 / 10))]) := by
    apply reconcileObj_eq
    rw [hraw, hm1]
  have hfirst : reconcileMath cexIdemRecord =
      .ok (.vObj (outFields [("line_items", .vArr [.vObj [("qty", .vNum 199),
        ("unit_price", .vNum 1), ("amount", .vNum (209 / 10))]])]
        [mkItem .vNull .vNull (some 199) (some (11 / 100)) (some (209 / 10))])) := by
    rw [show reconcileMath cexIdemRecord = Except.map JVal.vObj (reconcileObj
      [("line_items", .vArr [.vObj [("qty", .vNum 199),
        ("unit_price", .vNum 1), ("amount", .vNum (209 / 10))]])]) from rfl, hro1]
    rfl
  have hm2 : mapME repairItem [mkItem .vNull .vNull (some 199) (some (11 / 100))
      (some (209 / 10))] =
      .ok [mkItem .vNull .vNull (some 190) (some (11 / 100)) (some (209 / 10))] := by
    simp [mapME, cex_repair2]
  have hro2 : reconcileObj (outFields [("line_items", .vArr [.vObj [("qty", .vNum 199),
      ("unit_price", .vNum 1), ("amount", .vNum (209 / 10))]])]
      [mkItem .vNull .vNull (some 199) (some (11 / 100)) (some (209 / 10))]) =
      .ok (outFields (outFields [("line_items", .vArr [.vObj [("qty", .vNum 199),
        ("unit_price", .vNum 1), ("amount", .vNum (209 / 10))]])]
        [mkItem .vNull .vNull (some 199) (some (11 / 100)) (some (209 / 10))])
        [mkItem .vNull .vNull (some 190) (some (11 / 100)) (some (209 / 10))]) := by
    apply reconcileObj_eq
    rw [rawItems_outFields, hm2]
  have hsecond : reconcileTwice cexIdemRecord =
      .ok (.vObj (outFields (outFields [("line_items", .vArr [.vObj [("qty", .vNum 199),
        ("unit_price", .vNum 1), ("amount", .vNum (209 / 10))]])]
        [mkItem .vNull .vNull (some 199) (some (11 / 100)) (some (209 / 10))])
        [mkItem .vNull .vNull (some 190) (some (11 / 100)) (some (209 / 10))])) := by
    show (reconcileMath cexIdemRecord).bind reconcileMath = _
    rw [hfirst]
    rw [show (Except.ok (JVal.vObj (outFields [("line_items", .vArr [.vObj
        [("qty", .vNum 199), ("unit_price", .vNum 1), ("amount", .vNum (209 / 10))]])]
        [mkItem .vNull .vNull (some 199) (some (11 / 100)) (some (209 / 10))]))).bind
        reconcileMath = Except.map JVal.vObj (reconcileObj (outFields
        [("line_items", .vArr [.vObj [("qty", .vNum 199), ("unit_price", .vNum 1),
          ("amount", .vNum (209 / 10))]])]
        [mkItem .vNull .vNull (some 199) (some (11 / 100)) (some (209 / 10))])) from rfl,
      hro2]
    rfl
  have q1 : qtyOfItem (reconcileMath cexIdemRecord) 0 = some 199 := by
    rw [hfirst, qtyOfItem_ok, outItems_obj, rawItems_outFields]
    simp [itemGet_mkItem_qty, toNumber_oj, oj, toNumber]
  have q2 : qtyOfItem (reconcileTwice cexIdemRecord) 0 = some 190 := by
    rw [hsecond, qtyOfItem_ok, outItems_obj, rawItems_outFields]
    simp [itemGet_mkItem_qty, toNumber_oj, oj, toNumber]
  intro h
  rw [h, q1] at q2
  rw [Option.some_inj] at q2
  norm_num at q2

/-- Witness for the amended C1 theorem at the empty record. -/
theorem reconcile_idem_on_consistent_witness :
    reconcileMath (.vObj (outFields [] [])) = .ok (.vObj (outFields [] [])) :=
  reconcile_idem_on_consistent (.vObj []) (.vObj (outFields [] []))
    (by
      rw [show reconcileMath (.vObj []) = Except.map JVal.vObj (reconcileObj []) from rfl,
        reconcileObj_eq [] [] rfl]
      rfl)
    (by
      intro it h
      rw [outItems_obj, rawItems_outFields] at h
      exact absurd h (List.not_mem_nil it))

/-! ## Claim C2 — document-level derivation -/

/-- **C2** (confirmed): after all line items are repaired (`its` is the
repaired item list), the document-level derivation only fills fields that
are still `null`: a present (normalized) `subtotal`/`tax_amount`/`total`
is never overwritten; a `null` subtotal becomes the rounded sum of the
repaired line-item amounts (`null`s counted as `0` inside `sumItemsQ`)
exactly when that sum is non-zero; a `null` `tax_amount` becomes
`round2(subtotal * tax_rate/100)` when the (possibly derived) subtotal
and the tax rate are present; a `null` `total` becomes
`round2(subtotal + tax_amount)` when both are present. -/
theorem reconcile_doc_derivation (f : Fields) (its : List JVal)
    (hits : mapME repairItem (rawItems f) = .ok its) :
    reconcileMath (.vObj f) = .ok (.vObj (outFields f its)) ∧
    (∀ q, subNorm f = some q → getF (outFields f its) "subtotal" = .vNum q) ∧
    (subNorm f = none →
      (sumItemsQ its ≠ 0 →
        getF (outFields f its) "subtotal" = .vNum (sumItemsQ its)) ∧
      (sumItemsQ its = 0 → getF (outFields f its) "subtotal" = .vNull)) ∧
    (∀ q, taxNorm f = some q → getF (outFields f its) "tax_amount" = .vNum q) ∧
    (taxNorm f = none → ∀ st tr,
      getF (outFields f its) "subtotal" = .vNum st → rateNorm f = some tr →
      getF (outFields f its) "tax_amount" = .vNum (round2q (st * (tr / 100)))) ∧
    (∀ q, totNorm f = some q → getF (outFields f its) "total" = .vNum q) ∧
    (totNorm f = none → ∀ st ta,
      getF (outFields f its) "subtotal" = .vNum st →
      getF (outFields f its) "tax_amount" = .vNum ta →
      getF (outFields f its) "total" = .vNum (round2q (st + ta))) := by
  have hsub : getF (outFields f its) "subtotal" = oj (subDerived f its) :=
    getF_outFields_subtotal f its
  have htax : getF (outFields f its) "tax_amount" = oj (taxDerived f its) :=
    getF_outFields_tax_amount f its
  have htot : getF (outFields f its) "total" = oj (totDerived f its) :=
    getF_outFields_total f its
  have hsubD : ∀ st, getF (outFields f its) "subtotal" = .vNum st ↔
      subDerived f its = some st := by
    intro st
    rw [hsub]
    cases subDerived f its <;> simp [oj]
  refine ⟨?_, ?_, ?_, ?_, ?_, ?_, ?_⟩
  · rw [show reconcileMath (.vObj f) = Except.map JVal.vObj (reconcileObj f) from rfl,
      reconcileObj_eq f its hits]
    rfl
  · intro q hq
    rw [hsub]
    unfold subDerived subStep
    rw [hq]
    rfl
  · intro hq
    constructor
    · intro hnz
      rw [hsub]
      unfold subDerived subStep
      rw [hq]
      simp only [if_pos hnz]
      rfl
    · intro hz
      rw [hsub]
      unfold subDerived subStep
      rw [hq]
      simp [hz]
      rfl
  · intro q hq
    rw [htax]
    unfold taxDerived
    rw [hq, taxStep_some]
    rfl
  · intro hq st tr hst htr
    rw [htax]
    unfold taxDerived
    rw [hq, (hsubD st).1 hst, htr]
    rfl
  · intro q hq
    rw [htot]
    unfold totDerived
    rw [hq, totStep_some]
    rfl
  · intro hq st ta hst hta
    have htaD : taxDerived f its = some ta := by
      rw [htax] at hta
      cases h : taxDerived f its <;> rw [h] at hta <;> simp [oj] at hta
      rw [hta]
    rw [htot]
    unfold totDerived
    rw [hq, (hsubD st).1 hst, htaD]
    rfl

/-- Witness for C2 at `{subtotal:100, tax_rate:13, tax_amount:null,
total:null}`: the derivation chain yields `tax_amount = 13` and
`total = 113`. -/
theorem reconcile_doc_derivation_witness :
    getF (outFields [("subtotal", .vNum 100), ("tax_rate", .vNum 13),
      ("tax_amount", .vNull), ("total", .vNull)] []) "tax_amount" = .vNum 13 ∧
    getF (outFields [("subtotal", .vNum 100), ("tax_rate", .vNum 13),
      ("tax_amount", .vNull), ("total", .vNull)] []) "total" = .vNum 113 := by
  have h := reconcile_doc_derivation [("subtotal", .vNum 100), ("tax_rate", .vNum 13),
    ("tax_amount", .vNull), ("total", .vNull)] [] rfl
  have h100 : round2q 100 = 100 := by
    rw [round2q_eval _ 10000 (by norm_num [epsQ])]; norm_num
  have h13 : round2q 13 = 13 := by
    rw [round2q_eval _ 1300 (by norm_num [epsQ])]; norm_num
  have h113 : round2q 113 = 113 := by
    rw [round2q_eval _ 11300 (by norm_num [epsQ])]; norm_num
  have hsubN : subNorm [("subtotal", .vNum 100), ("tax_rate", .vNum 13),
      ("tax_amount", .vNull), ("total", .vNull)] = some 100 := by
    simp [subNorm, getF, toNumber, round2, h100]
  have hrate : rateNorm [("subtotal", .vNum 100), ("tax_rate", .vNum 13),
      ("tax_amount", .vNull), ("total", .vNull)] = some 13 := by
    simp [rateNorm, getF, toNumber]
  have hsub100 := h.2.1 100 hsubN
  have htaxA := h.2.2.2.2.1 rfl 100 13 hsub100 hrate
  have htax13 : getF (outFields [("subtotal", .vNum 100), ("tax_rate", .vNum 13),
      ("tax_amount", .vNull), ("total", .vNull)] []) "tax_amount" = .vNum 13 := by
    rw [htaxA]
    norm_num [h13]
  refine ⟨htax13, ?_⟩
  have htotA := h.2.2.2.2.2.2 rfl 100 13 hsub100 htax13
  rw [htotA]
  norm_num [h113]

/-- When the qty-fill keeps the fractional `round2(amount/unit)` (because
`amount/unit` is at least `0.02` from the nearest integer), the later
inconsistency fix can never take its integer-snap branch: the two
tolerances force contradictory bounds on `|unit|`. -/
theorem no_snap_after_round (u a : ℚ) (hu : u ≠ 0)
    (h02 : 1 / 50 ≤ |a / u - (jsRound (a / u) : ℚ)|)
    (h1 : 1 / 20 < |round2q (round2q (a / u) * u) - a|)
    (h3 : |round2q ((jsRound (a / u) : ℚ) * u) - a| ≤ 1 / 10) : False := by
  have hr : |round2q (a / u) - a / u| ≤ 1 / 200 + epsQ := round2q_close _
  have hc1 : |round2q (round2q (a / u) * u) - round2q (a / u) * u| ≤ 1 / 200 + epsQ :=
    round2q_close _
  have hc2 : |round2q ((jsRound (a / u) : ℚ) * u) - (jsRound (a / u) : ℚ) * u|
      ≤ 1 / 200 + epsQ := round2q_close _
  have ha : a / u * u = a := div_mul_cancel₀ a hu
  have he : epsQ ≤ 1 / 1000 := epsQ_small
  have hep : (0 : ℚ) < epsQ := epsQ_pos
  have h4 : |round2q (a / u) * u - a| = |round2q (a / u) - a / u| * |u| := by
    conv_rhs => rw [← abs_mul, sub_mul, ha]
  have h5 : |(jsRound (a / u) : ℚ) * u - a| = |(jsRound (a / u) : ℚ) - a / u| * |u| := by
    conv_rhs => rw [← abs_mul, sub_mul, ha]
  have h02' : 1 / 50 ≤ |(jsRound (a / u) : ℚ) - a / u| := by
    rw [abs_sub_comm] at h02
    exact h02
  have hA : 1 / 20 < (1 / 200 + epsQ) + |round2q (a / u) - a / u| * |u| := by
    have t1 : |round2q (round2q (a / u) * u) - a| ≤
        |round2q (round2q (a / u) * u) - round2q (a / u) * u| +
        |round2q (a / u) * u - a| := abs_sub_le _ _ _
    rw [h4] at t1
    linarith
  have hB : |(jsRound (a / u) : ℚ) - a / u| * |u| ≤ 1 / 10 + (1 / 200 + epsQ) := by
    have t2 : |(jsRound (a / u) : ℚ) * u - a| ≤
        |(jsRound (a / u) : ℚ) * u - round2q ((jsRound (a / u) : ℚ) * u)| +
        |round2q ((jsRound (a / u) : ℚ) * u) - a| := abs_sub_le _ _ _
    rw [h5] at t2
    rw [abs_sub_comm] at hc2
    linarith
  have hup : (0 : ℚ) ≤ |u| := abs_nonneg u
  nlinarith [mul_le_mul_of_nonneg_right hr hup,
    mul_le_mul_of_nonneg_right h02' hup,
    mul_le_mul_of_nonneg_right he (le_of_lt hep)]

theorem fillQty_compute (u a : ℚ) (hu0 : ¬(u = 0)) :
    fillQty (some u) (some a) none =
      some (if |a / u - (jsRound (a / u) : ℚ)| < 1 / 50
        then ((jsRound (a / u) : ℚ)) else round2q (a / u)) := by
  simp only [fillQty]
  rw [if_neg hu0]
  split_ifs <;> rfl

theorem fixQtyUnit_fst_of_jsRound (u a : ℚ) :
    (fixQtyUnit (some ((jsRound (a / u) : ℚ))) (some u) (some a)).1 =
      some ((jsRound (a / u) : ℚ)) := by
  simp only [fixQtyUnit]
  split_ifs <;> rfl

theorem fixQtyUnit_fst_of_round (u a : ℚ) (hu0 : u ≠ 0)
    (h02 : ¬(|a / u - (jsRound (a / u) : ℚ)| < 1 / 50)) :
    (fixQtyUnit (some (round2q (a / u))) (some u) (some a)).1 =
      some (round2q (a / u)) := by
  simp only [fixQtyUnit]
  split_ifs with hA hB
  · rfl
  · exfalso
    rw [approxQ_true_iff] at hA
    obtain ⟨-, -, hB3⟩ := hB
    rw [approxQ_true_iff] at hB3
    exact no_snap_after_round u a hu0 (not_lt.1 h02) (not_le.1 hA) hB3
  · rfl
  · rfl

/-! ## Claim C3 — filling a missing quantity -/

/-- **C3** (amended): for a line item with `qty` unparseable/missing,
`unit_price` normalizing to `u ≠ 0` and `amount` normalizing to `a`, the
repair computes `q = a/u` and stores, as the final `qty` of the item,
`Math.round q` when `|q - Math.round q| < 0.02` (strictly), and
`round2 q` otherwise — the snap does *not* happen at exactly `0.02`
(the source comparison on line 100 is strict `<`). -/
theorem reconcile_qty_fill (it : JVal) (u a : ℚ)
    (h1 : it ≠ .vNull) (h2 : it ≠ .vUndef)
    (hq : toNumber (itemGet it "qty") = none)
    (hu : round2 (toNumber (itemGet it "unit_price")) = some u)
    (ha : round2 (toNumber (itemGet it "amount")) = some a)
    (hu0 : u ≠ 0) :
    ∃ out, repairItem it = .ok out ∧
      itemGet out "qty" = oj (some (if |a / u - (jsRound (a / u) : ℚ)| < 1 / 50
        then ((jsRound (a / u) : ℚ)) else round2q (a / u))) := by
  rw [repairItem_eq it h1 h2, hq, hu, ha, repairTriple_eq, fillAmt_amt_some,
    fillUnit_unit_some, fillQty_compute u a hu0]
  refine ⟨_, rfl, ?_⟩
  rw [itemGet_mkItem_qty]
  by_cases hsnap : |a / u - (jsRound (a / u) : ℚ)| < 1 / 50
  · rw [if_pos hsnap, fixQtyUnit_fst_of_jsRound]
  · rw [if_neg hsnap, fixQtyUnit_fst_of_round u a hu0 hsnap]

theorem itemQtyOf_ok (y : JVal) : itemQtyOf (.ok y) = some (itemGet y "qty") := rfl

/-- Witness for C3 at `{qty:null, unit_price:5, amount:15.02}`:
`q = 3.004` is strictly within `0.02` of `3`, so `qty` snaps to `3`. -/
theorem reconcile_qty_fill_witness :
    itemQtyOf (repairItem (.vObj [("qty", .vNull), ("unit_price", .vNum 5),
      ("amount", .vNum (1502 / 100))])) = some (.vNum 3) := by
  have r2q5 : round2q 5 = 5 := by
    rw [round2q_eval _ 500 (by norm_num [epsQ])]; norm_num
  have r2q1502 : round2q (1502 / 100) = 1502 / 100 := by
    rw [round2q_eval _ 1502 (by norm_num [epsQ])]; norm_num
  obtain ⟨out, hout, hqty⟩ := reconcile_qty_fill
    (.vObj [("qty", .vNull), ("unit_price", .vNum 5), ("amount", .vNum (1502 / 100))])
    5 (1502 / 100) (by simp) (by simp)
    (by simp [itemGet, getF, toNumber])
    (by simp [itemGet, getF, toNumber, round2, r2q5])
    (by simp [itemGet, getF, toNumber, round2, r2q1502])
    (by norm_num)
  rw [hout, itemQtyOf_ok, hqty]
  have hdiv : (1502 : ℚ) / 100 / 5 = 751 / 250 := by norm_num
  have hn : jsRound ((1502 : ℚ) / 100 / 5) = 3 := by
    rw [hdiv]; exact jsRound_eval _ 3 (by norm_num)
  rw [hn]
  have hcond : |(1502 : ℚ) / 100 / 5 - ((3 : ℤ) : ℚ)| < 1 / 50 := by
    rw [hdiv, show ((3 : ℤ) : ℚ) = 3 from by norm_num, abs_lt]
    constructor <;> norm_num
  rw [if_pos hcond]
  norm_num [oj]

/-- **C3** counterexample: for `{qty:null, unit_price:1, amount:3.02}`,
`q = 3.02` is at exactly `0.02` from `3`; the strict `<` keeps the
fractional value, so the stored `qty` is `3.02`, not the `3` the claim
requires at the inclusive boundary. -/
theorem reconcile_qty_boundary_not_snapped :
    qtyOfItem (reconcileMath (.vObj [("line_items", .vArr [.vObj [("qty", .vNull),
      ("unit_price", .vNum 1), ("amount", .vNum (151 / 50))]])])) 0 =
      some (151 / 50) ∧ ((151 : ℚ) / 50 ≠ 3) := by
  have hr302 : round2q (151 / 50) = 151 / 50 := by
    rw [round2q_eval _ 302 (by norm_num [epsQ])]; norm_num
  have hrep : repairItem (.vObj [("qty", .vNull), ("unit_price", .vNum 1),
      ("amount", .vNum (151 / 50))]) =
      .ok (mkItem .vNull .vNull (some (151 / 50)) (some 1) (some (151 / 50))) := by
    rw [repairItem_eq _ (by simp) (by simp)]
    have e3 : toNumber (itemGet (JVal.vObj [("qty", .vNull), ("unit_price", .vNum 1),
        ("amount", .vNum (151 / 50))]) "qty") = none := by
      simp [itemGet, getF, toNumber]
    have e4 : round2 (toNumber (itemGet (JVal.vObj [("qty", .vNull),
        ("unit_price", .vNum 1), ("amount", .vNum (151 / 50))]) "unit_price")) =
        some 1 := by
      simp [itemGet, getF, toNumber, round2, r2q_one]
    have e5 : round2 (toNumber (itemGet (JVal.vObj [("qty", .vNull),
        ("unit_price", .vNum 1), ("amount", .vNum (151 / 50))]) "amount")) =
        some (151 / 50) := by
      simp [itemGet, getF, toNumber, round2, hr302]
    rw [e3, e4, e5, repairTriple_eq, fillAmt_amt_some, fillUnit_unit_some,
      fillQty_compute 1 (151 / 50) (by norm_num)]
    have hdiv : (151 : ℚ) / 50 / 1 = 151 / 50 := by norm_num
    have hn : jsRound ((151 : ℚ) / 50 / 1) = 3 := by
      rw [hdiv]; exact jsRound_eval _ 3 (by norm_num)
    rw [hn]
    have hcond : ¬(|(151 : ℚ) / 50 / 1 - ((3 : ℤ) : ℚ)| < 1 / 50) := by
      rw [hdiv, show ((3 : ℤ) : ℚ) = 3 from by norm_num]
      exact not_abs_lt_left _ _ (by norm_num)
    rw [if_neg hcond, hdiv, hr302]
    have hfix : fixQtyUnit (some ((151 : ℚ) / 50)) (some 1) (some ((151 : ℚ) / 50)) =
        (some ((151 : ℚ) / 50), some 1) := by
      apply fixQtyUnit_consistent
      rw [show (151 : ℚ) / 50 * 1 = 151 / 50 from by norm_num, hr302]
      simp
    rw [hfix]
    have hp : coalesceDesc (itemGet (JVal.vObj [("qty", .vNull),
        ("unit_price", .vNum 1), ("amount", .vNum (151 / 50))])
        "product_or_service") = .vNull := by
      simp [itemGet, getF, coalesceDesc]
    have hd : coalesceDesc (itemGet (JVal.vObj [("qty", .vNull),
        ("unit_price", .vNum 1), ("amount", .vNum (151 / 50))])
        "description") = .vNull := by
      simp [itemGet, getF, coalesceDesc]
    rw [hp, hd]
  refine ⟨?_, by norm_num⟩
  have hm1 : mapME repairItem [JVal.vObj [("qty", .vNull), ("unit_price", .vNum 1),
      ("amount", .vNum (151 / 50))]] =
      .ok [mkItem .vNull .vNull (some (151 / 50)) (some 1) (some (151 / 50))] := by
    simp [mapME, hrep]
  have hro : reconcileObj [("line_items", .vArr [.vObj [("qty", .vNull),
      ("unit_price", .vNum 1), ("amount", .vNum (151 / 50))]])] =
      .ok (outFields [("line_items", .vArr [.vObj [("qty", .vNull),
        ("unit_price", .vNum 1), ("amount", .vNum (151 / 50))]])]
        [mkItem .vNull .vNull (some (151 / 50)) (some 1) (some (151 / 50))]) := by
    apply reconcileObj_eq
    rw [show rawItems [("line_items", .vArr [.vObj [("qty", .vNull),
      ("unit_price", .vNum 1), ("amount", .vNum (151 / 50))]])] =
      [JVal.vObj [("qty", .vNull), ("unit_price", .vNum 1),
        ("amount", .vNum (151 / 50))]] from by simp [rawItems, getF], hm1]
  rw [show reconcileMath (.vObj [("line_items", .vArr [.vObj [("qty", .vNull),
      ("unit_price", .vNum 1), ("amount", .vNum (151 / 50))]])]) =
      Except.map JVal.vObj (reconcileObj [("line_items", .vArr [.vObj [("qty", .vNull),
      ("unit_price", .vNum 1), ("amount", .vNum (151 / 50))]])]) from rfl, hro]
  rw [show Except.map JVal.vObj (Except.ok (ε := JErr) (outFields [("line_items",
      .vArr [.vObj [("qty", .vNull), ("unit_price", .vNum 1),
      ("amount", .vNum (151 / 50))]])]
      [mkItem .vNull .vNull (some (151 / 50)) (some 1) (some (151 / 50))])) =
      Except.ok (JVal.vObj (outFields [("line_items", .vArr [.vObj [("qty", .vNull),
      ("unit_price", .vNum 1), ("amount", .vNum (151 / 50))]])]
      [mkItem .vNull .vNull (some (151 / 50)) (some 1) (some (151 / 50))])) from rfl]
  rw [qtyOfItem_ok, outItems_obj, rawItems_outFields]
  simp [itemGet_mkItem_qty, toNumber_oj, oj, toNumber]

/-! ## Claim C4 — `round2` rounding semantics -/

/-- **C4** (amended): `round2` rounds to two decimals with
*round-half-up* (toward `+∞`) semantics, the epsilon nudge countering
representation error: every exact half in hundredths, `(2k+1)/200`,
rounds to `(k+1)/100` — up, which is away from zero for positive values
but **toward** zero for negative ones — and every rounding moves the
value by at most half a cent plus the nudge. -/
theorem round2_half_up :
    (∀ k : ℤ, round2 (some ((2 * k + 1) / 200)) = some (((k : ℚ) + 1) / 100)) ∧
    (∀ n : ℚ, |round2q n - n| ≤ 1 / 200 + epsQ) := by
  constructor
  · intro k
    show some (round2q ((2 * (k : ℚ) + 1) / 200)) = some (((k : ℚ) + 1) / 100)
    have harg : (((2 * (k : ℚ) + 1) / 200) + epsQ) * 100 + 1 / 2
        = (k : ℚ) + (1 + epsQ * 100) := by ring
    rw [round2q, jsRound, harg, Int.floor_int_add]
    have hfl : ⌊(1 : ℚ) + epsQ * 100⌋ = 1 := by norm_num [epsQ]
    rw [hfl]
    push_cast
    ring_nf
  · exact round2q_close

/-- **C4** counterexample: the negative exact half `-0.005` rounds to `0`
(toward zero), not to the `-0.01` that round-half-away-from-zero
requires. -/
theorem round2_neg_half_toward_zero :
    round2 (some (-(1 / 200))) = some 0 ∧ ((0 : ℚ) ≠ -(1 / 100)) := by
  constructor
  · show some (round2q (-(1 / 200))) = some 0
    rw [round2q_eval _ 0 (by norm_num [epsQ])]
    norm_num
  · norm_num

/-! ## Claim C5 — border pixels under sharpening -/

theorem getD_set_ne (l : List ℕ) (i j a : ℕ) (h : i ≠ j) :
    (l.set i a).getD j 0 = l.getD j 0 := by
  rw [List.getD_eq_getElem?_getD, List.getElem?_set_ne h, ← List.getD_eq_getElem?_getD]

theorem getD_replicate_zero (n i : ℕ) : (List.replicate n (0 : ℕ)).getD i 0 = 0 := by
  rw [List.getD_eq_getElem?_getD, List.getElem?_replicate]
  split <;> rfl

/-- Pixel coordinates are uniquely recoverable from a row-major index. -/
theorem grid_index_inj (w x x' y y' : ℕ) (hx : x < w) (hx' : x' < w)
    (he : y' * w + x' = y * w + x) : y' = y ∧ x' = x := by
  have hw : 0 < w := lt_of_le_of_lt (Nat.zero_le x) hx
  have he' : x' + y' * w = x + y * w := by omega
  have e1 := congrArg (· % w) he'
  simp only [Nat.add_mul_mod_self_right] at e1
  rw [Nat.mod_eq_of_lt hx', Nat.mod_eq_of_lt hx] at e1
  subst e1
  have e2 : y' * w = y * w := by omega
  exact ⟨Nat.eq_of_mul_eq_mul_right hw e2, rfl⟩

/-- A write at interior pixel `(x', y')` cannot touch index `j` when `j`
is not one of its four byte slots. -/
theorem writePixel_getD_ne (w : ℕ) (src dst : List ℕ) (x' y' j : ℕ)
    (hj : ∀ ch', ch' < 4 → (y' * w + x') * 4 + ch' ≠ j) :
    (writePixel w src dst x' y').getD j 0 = dst.getD j 0 := by
  unfold writePixel
  rw [getD_set_ne _ _ _ _ (hj 3 (by norm_num)),
    getD_set_ne _ _ _ _ (hj 2 (by norm_num)),
    getD_set_ne _ _ _ _ (hj 1 (by norm_num)),
    getD_set_ne _ _ _ _ (by have := hj 0 (by norm_num); omega)]

/-- **C5** (amended): with sharpening enabled, every border byte of the
preprocessed bitmap is `0` — the sharpen pass writes its (zero-initialized
`createImageData`) output buffer only at interior pixels and then replaces
the whole canvas with it, so border pixels come out as transparent black
`(0,0,0,0)`, *not* as their pre-sharpen (post-binarization) values. -/
theorem sharpen_border_zero (cfg : PreCfg) (w h : ℕ) (src : List ℕ) (x y ch : ℕ)
    (hsh : cfg.sharpen = true) (hx : x < w) (hy : y < h) (hch : ch < 4)
    (hb : x = 0 ∨ y = 0 ∨ x = w - 1 ∨ y = h - 1) :
    (preprocessPixels cfg w h src).getD ((y * w + x) * 4 + ch) 0 = 0 := by
  unfold preprocessPixels
  rw [hsh]
  simp only [if_true]
  have hdisj : ∀ x' y' : ℕ, 1 ≤ x' → x' < w - 1 → 1 ≤ y' → y' < h - 1 →
      ∀ ch', ch' < 4 → (y' * w + x') * 4 + ch' ≠ (y * w + x) * 4 + ch := by
    intro x' y' hx1 hx2 hy1 hy2 ch' hch' heq
    have hAB : y' * w + x' = y * w + x := by omega
    have hxw' : x' < w := by omega
    obtain ⟨hyy, hxx⟩ := grid_index_inj w x x' y y' hx hxw' hAB
    omega
  have inner : ∀ (xs : List ℕ) (y' : ℕ), 1 ≤ y' → y' < h - 1 →
      (∀ x' ∈ xs, 1 ≤ x' ∧ x' < w - 1) → ∀ dst : List ℕ,
      ((xs.foldl (fun d x' => writePixel w (binarizePixels cfg src) d x' y') dst).getD
        ((y * w + x) * 4 + ch) 0 = dst.getD ((y * w + x) * 4 + ch) 0) := by
    intro xs y' hy1 hy2
    induction xs with
    | nil => intro _ dst; rfl
    | cons x0 xs ih =>
      intro hxs dst
      rw [List.foldl_cons, ih (fun z hz => hxs z (List.mem_cons_of_mem x0 hz)),
        writePixel_getD_ne]
      intro ch' hch'
      obtain ⟨h1, h2⟩ := hxs x0 (List.mem_cons_self x0 xs)
      exact hdisj x0 y' h1 h2 hy1 hy2 ch' hch'
  have outer : ∀ (ys : List ℕ), (∀ y' ∈ ys, 1 ≤ y' ∧ y' < h - 1) → ∀ dst : List ℕ,
      ((ys.foldl (fun d y' => (List.range' 1 (w - 2)).foldl
        (fun d2 x' => writePixel w (binarizePixels cfg src) d2 x' y') d) dst).getD
        ((y * w + x) * 4 + ch) 0 = dst.getD ((y * w + x) * 4 + ch) 0) := by
    intro ys
    induction ys with
    | nil => intro _ dst; rfl
    | cons y0 ys ih =>
      intro hys dst
      obtain ⟨h1, h2⟩ := hys y0 (List.mem_cons_self y0 ys)
      rw [List.foldl_cons, ih (fun z hz => hys z (List.mem_cons_of_mem y0 hz)),
        inner (List.range' 1 (w - 2)) y0 h1 h2]
      intro x' hx'
      rw [List.mem_range'_1] at hx'
      omega
  unfold sharpenList
  rw [outer]
  · exact getD_replicate_zero _ _
  · intro y' hy'
    rw [List.mem_range'_1] at hy'
    omega

/-- **C5** counterexample: on the all-white 3x3 bitmap with sharpening
enabled, the post-binarization top-left pixel is white (`255`) but the
sharpened output's top-left byte is `0` — the border is *not* left at its
pre-sharpen value. -/
theorem sharpen_border_not_preserved :
    (preprocessPixels cexSharpenCfg 3 3 whitePixels).getD 0 0 = 0 ∧
    (binarizePixels cexSharpenCfg whitePixels).getD 0 0 = 255 := by
  constructor
  · rw [show preprocessPixels cexSharpenCfg 3 3 whitePixels =
        writePixel 3 (binarizePixels cexSharpenCfg whitePixels)
          (List.replicate 36 0) 1 1 from rfl]
    rw [writePixel_getD_ne]
    · exact getD_replicate_zero _ _
    · intro ch' hch'
      omega
  · have hchunk : binChunk cexSharpenCfg 255 255 255 255 = [255, 255, 255, 255] := by
      unfold binChunk cexSharpenCfg
      norm_num
    rw [show whitePixels = 255 :: 255 :: 255 :: 255 :: List.replicate 32 255 from rfl]
    rw [show binarizePixels cexSharpenCfg
        (255 :: 255 :: 255 :: 255 :: List.replicate 32 255) =
        binChunk cexSharpenCfg 255 255 255 255 ++
        binarizePixels cexSharpenCfg (List.replicate 32 255) from rfl]
    rw [hchunk]
    rfl

/-- Witness for C5: the right-edge pixel `(2, 1)` of the sharpened
all-white 3x3 bitmap reads back `0`. -/
theorem sharpen_border_zero_witness :
    (preprocessPixels cexSharpenCfg 3 3 whitePixels).getD ((1 * 3 + 2) * 4 + 0) 0 = 0 :=
  sharpen_border_zero cexSharpenCfg 3 3 whitePixels 2 1 0 rfl (by norm_num)
    (by norm_num) (by norm_num) (Or.inr (Or.inr (Or.inl rfl)))

/-! ## Claim C6 — OCR scoring: character-class facts -/

theorem ws_char_cases (c : Char) (h : isWsChar c = true) :
    c = ' ' ∨ c = '\t' ∨ c = '\n' ∨ c = '\r' ∨ c = '\x0b' ∨ c = '\x0c' := by
  simp only [isWsChar, Bool.or_eq_true, beq_iff_eq] at h
  tauto

theorem ws_not_letter (c : Char) (h : isWsChar c = true) : isLetterChar c = false := by
  rcases ws_char_cases c h with rfl | rfl | rfl | rfl | rfl | rfl <;> decide

theorem ws_not_digit (c : Char) (h : isWsChar c = true) : isDigitChar c = false := by
  rcases ws_char_cases c h with rfl | rfl | rfl | rfl | rfl | rfl <;> decide

theorem ws_not_repl (c : Char) (h : isWsChar c = true) : (c == replChar) = false := by
  rcases ws_char_cases c h with rfl | rfl | rfl | rfl | rfl | rfl <;> decide

theorem alnum_not_ws (c : Char) (h : isAlnumChar c = true) : isWsChar c = false := by
  by_cases hw : isWsChar c = true
  · rw [isAlnumChar, ws_not_letter c hw, ws_not_digit c hw] at h
    simp at h
  · simpa using hw

theorem letter_not_digit (c : Char) (h : isLetterChar c = true) :
    isDigitChar c = false := by
  simp only [isLetterChar, Bool.or_eq_true, Bool.and_eq_true, decide_eq_true_eq] at h
  simp only [isDigitChar, Bool.and_eq_true, decide_eq_true_eq, Bool.and_eq_false_iff,
    decide_eq_false_iff_not, not_le]
  omega

theorem letter_not_repl (c : Char) (h : isLetterChar c = true) :
    (c == replChar) = false := by
  by_cases hb : (c == replChar) = true
  · rw [beq_iff_eq] at hb
    subst hb
    exact absurd h (by decide)
  · simpa using hb

theorem digit_not_repl (c : Char) (h : isDigitChar c = true) :
    (c == replChar) = false := by
  by_cases hb : (c == replChar) = true
  · rw [beq_iff_eq] at hb
    subst hb
    exact absurd h (by decide)
  · simpa using hb

theorem repl_not_ws : isWsChar replChar = false := by decide

theorem repl_not_letter : isLetterChar replChar = false := by decide

theorem repl_not_digit : isDigitChar replChar = false := by decide

/-! ## Trim lemmas -/

theorem trimL_append_nonws (l : List Char) (c : Char) (h : isWsChar c = false) :
    trimL (l ++ [c]) = trimL l ++ [c] := by
  induction l with
  | nil => simp [trimL, List.dropWhile, h]
  | cons a l ih =>
    simp only [trimL, List.cons_append, List.dropWhile_cons] at *
    by_cases ha : isWsChar a = true
    · simp [ha] at *
      exact ih
    · simp only [Bool.not_eq_true] at ha
      simp [ha]

theorem trimR_append_nonws (l : List Char) (c : Char) (h : isWsChar c = false) :
    trimR (l ++ [c]) = l ++ [c] := by
  unfold trimR
  rw [List.reverse_append]
  simp only [List.reverse_singleton, List.singleton_append, List.dropWhile_cons, h]
  simp

theorem jsTrim_append_nonws (l : List Char) (c : Char) (h : isWsChar c = false) :
    jsTrim (l ++ [c]) = trimL l ++ [c] := by
  rw [jsTrim, trimL_append_nonws l c h, trimR_append_nonws _ c h]

/-- `trimStart` is the trimmed text followed by trailing whitespace. -/
theorem trimL_decompose (l : List Char) :
    ∃ s, trimL l = jsTrim l ++ s ∧ ∀ c ∈ s, isWsChar c = true := by
  refine ⟨((trimL l).reverse.takeWhile isWsChar).reverse, ?_, ?_⟩
  · rw [jsTrim, trimR]
    rw [← List.reverse_append, List.takeWhile_append_dropWhile, List.reverse_reverse]
  · intro c hc
    rw [List.mem_reverse] at hc
    exact List.mem_takeWhile_imp hc

theorem countP_all_false (p : Char → Bool) (s : List Char)
    (h : ∀ c ∈ s, p c = false) : s.countP p = 0 :=
  List.countP_eq_zero.2 (fun a ha => by simp [h a ha])

/-- Master formula: appending one non-whitespace character `c` to the text
scores the trimmed text's counts plus `c`'s own contribution, with the
length term now counting the whole `trimStart` prefix plus one. -/
theorem score_append_formula (l : List Char) (c : Char) (h : isWsChar c = false) :
    scoreOcrText (l ++ [c]) =
      (((jsTrim l).countP isLetterChar : ℚ) + (if isLetterChar c then 1 else 0))
      + (((jsTrim l).countP isDigitChar : ℚ) + (if isDigitChar c then 1 else 0))
      - 5 * (((jsTrim l).countP (fun x => x == replChar) : ℚ)
          + (if c == replChar then 1 else 0))
      + min 200 (((((trimL l).length + 1 : ℕ)) : ℚ) / 5) := by
  obtain ⟨s, hs, hws⟩ := trimL_decompose l
  have ht' : jsTrim (l ++ [c]) = (jsTrim l ++ s) ++ [c] := by
    rw [jsTrim_append_nonws l c h, hs]
  have hL0 : s.countP isLetterChar = 0 :=
    countP_all_false _ _ (fun x hx => ws_not_letter x (hws x hx))
  have hD0 : s.countP isDigitChar = 0 :=
    countP_all_false _ _ (fun x hx => ws_not_digit x (hws x hx))
  have hB0 : s.countP (fun x => x == replChar) = 0 :=
    countP_all_false _ _ (fun x hx => ws_not_repl x (hws x hx))
  have hne : (jsTrim l ++ s) ++ [c] ≠ [] := by simp
  rw [scoreOcrText]
  simp only [ht', if_neg hne]
  have hcnt : ∀ p : Char → Bool, ((jsTrim l ++ s) ++ [c]).countP p =
      (jsTrim l).countP p + s.countP p + (if p c then 1 else 0) := by
    intro p
    rw [List.countP_append, List.countP_append]
    simp [List.countP_cons]
  rw [hcnt, hcnt, hcnt, hL0, hD0, hB0]
  have hlen : ((jsTrim l ++ s) ++ [c]).length = (trimL l).length + 1 := by
    rw [hs]
    simp
    omega
  rw [hlen]
  push_cast
  split_ifs <;> ring

/-- The trimmed text is a prefix-trim away from the original:
`|jsTrim l| ≤ |trimL l|`. -/
theorem jsTrim_length_le (l : List Char) : (jsTrim l).length ≤ (trimL l).length := by
  obtain ⟨s, hs, -⟩ := trimL_decompose l
  rw [hs]
  simp

/-- **C6** (confirmed): the scoring heuristic satisfies, over character
lists: (1) empty or whitespace-only text scores `0`; (2) appending a plain
alphanumeric character strictly increases the score; (3) appending the
replacement glyph `�` scores exactly `5` less than appending an
equivalent-length ordinary character — one that counts neither as a
letter/digit nor as a replacement glyph (nor as trimmable whitespace) —
to the same text. -/
theorem scoreOcrText_props :
    (∀ l : List Char, (∀ c ∈ l, isWsChar c = true) → scoreOcrText l = 0) ∧
    (∀ (l : List Char) (c : Char), isAlnumChar c = true →
      scoreOcrText l < scoreOcrText (l ++ [c])) ∧
    (∀ (l : List Char) (c : Char), isAlnumChar c = false → isWsChar c = false →
      (c == replChar) = false →
      scoreOcrText (l ++ [replChar]) = scoreOcrText (l ++ [c]) - 5) := by
  refine ⟨?_, ?_, ?_⟩
  · intro l h
    have ht : jsTrim l = [] := by
      rw [jsTrim]
      have h2 : trimL l = [] := List.dropWhile_eq_nil_iff.2 (by simpa using h)
      rw [h2]
      rfl
    simp [scoreOcrText, ht]
  · intro l c hc
    have hnw := alnum_not_ws c hc
    have hor : isLetterChar c = true ∨ isDigitChar c = true := by
      simpa [isAlnumChar] using hc
    have hbc : ¬((c == replChar) = true) := by
      rcases hor with hl | hd
      · simp [letter_not_repl c hl]
      · simp [digit_not_repl c hd]
    rw [score_append_formula l c hnw, if_neg hbc]
    have hone : (if isLetterChar c = true then (1 : ℚ) else 0)
        + (if isDigitChar c = true then (1 : ℚ) else 0) = 1 := by
      rcases hor with hl | hd
      · rw [if_pos hl, if_neg (show ¬(isDigitChar c = true) by
          simp [letter_not_digit c hl])]
        norm_num
      · have hld : ¬(isLetterChar c = true) := by
          by_cases hx : isLetterChar c = true
          · rw [letter_not_digit c hx] at hd
            cases hd
          · exact hx
        rw [if_neg hld, if_pos hd]
        norm_num
    by_cases ht : jsTrim l = []
    · have hsc : scoreOcrText l = 0 := by simp [scoreOcrText, ht]
      rw [hsc, ht]
      simp only [List.countP_nil]
      have hmin : (0 : ℚ) < min 200 (((((trimL l).length + 1 : ℕ)) : ℚ) / 5) := by
        apply lt_min
        · norm_num
        · positivity
      push_cast at hmin ⊢
      linarith
    · have hsc : scoreOcrText l = ((jsTrim l).countP isLetterChar : ℚ)
          + ((jsTrim l).countP isDigitChar : ℚ)
          - 5 * ((jsTrim l).countP (fun x => x == replChar) : ℚ)
          + min 200 ((((jsTrim l).length : ℕ) : ℚ) / 5) := by
        rw [scoreOcrText]
        simp only [if_neg ht]
      rw [hsc]
      have hmin : min 200 ((((jsTrim l).length : ℕ) : ℚ) / 5)
          ≤ min 200 (((((trimL l).length + 1 : ℕ)) : ℚ) / 5) := by
        apply min_le_min le_rfl
        have h1 := jsTrim_length_le l
        have hq : ((jsTrim l).length : ℚ) ≤ (((trimL l).length + 1 : ℕ) : ℚ) := by
          exact_mod_cast le_trans h1 (Nat.le_succ _)
        linarith
      push_cast at hmin hone ⊢
      linarith
  · intro l c hna hnw hnr
    rw [score_append_formula l c hnw, score_append_formula l replChar repl_not_ws]
    have hcl : ¬(isLetterChar c = true) := by
      rcases Bool.or_eq_false_iff.1 hna with ⟨h1, h2⟩
      simp [h1]
    have hcd : ¬(isDigitChar c = true) := by
      rcases Bool.or_eq_false_iff.1 hna with ⟨h1, h2⟩
      simp [h2]
    have hcr : ¬((c == replChar) = true) := by simp [hnr]
    rw [if_neg hcl, if_neg hcd, if_neg hcr,
      if_neg (show ¬(isLetterChar replChar = true) by simp [repl_not_letter]),
      if_neg (show ¬(isDigitChar replChar = true) by simp [repl_not_digit]),
      if_pos (show (replChar == replChar) = true from by decide)]
    push_cast
    ring

/-- Witness for C6: concrete instances of all three scoring properties. -/
theorem scoreOcrText_props_witness :
    scoreOcrText [' '] = 0 ∧
    scoreOcrText ['a'] < scoreOcrText (['a'] ++ ['b']) ∧
    scoreOcrText (['a'] ++ [replChar]) = scoreOcrText (['a'] ++ [',']) - 5 := by
  refine ⟨?_, ?_, ?_⟩
  · exact scoreOcrText_props.1 [' '] (by
      intro c hc
      rw [List.mem_singleton] at hc
      subst hc
      decide)
  · exact scoreOcrText_props.2.1 ['a'] 'b' (by decide)
  · exact scoreOcrText_props.2.2 ['a'] ',' (by decide) (by decide) (by decide)

/-! ## Claim C7 — malformed TIFF frames abort the document -/

/-- The frame loop: if any remaining frame is bad, the loop aborts at the
*first* bad frame with its 1-based page error, and returns no text. -/
theorem ocrTiffGo_bad (fs : List TiffFrame) (k : ℕ) (acc : List String)
    (h : ∃ fr ∈ fs, badFrame fr = true) :
    ∃ i, ∃ hi : i < fs.length, badFrame (fs.get ⟨i, hi⟩) = true ∧
      (∀ j (hj : j < fs.length), j < i → badFrame (fs.get ⟨j, hj⟩) = false) ∧
      ocrTiffGo k fs acc = .error (frameErr (k + i + 1) (fs.get ⟨i, hi⟩)) := by
  induction fs generalizing k acc with
  | nil =>
    obtain ⟨fr, hfr, _⟩ := h
    exact absurd hfr (List.not_mem_nil fr)
  | cons f rest ih =>
    by_cases hf : badFrame f = true
    · refine ⟨0, by simp, hf, ?_, ?_⟩
      · intro j hj hj0
        exact absurd hj0 (Nat.not_lt_zero j)
      · show ocrTiffGo k (f :: rest) acc = .error (frameErr (k + 0 + 1) f)
        simp [ocrTiffGo, hf]
    · have h' : ∃ fr ∈ rest, badFrame fr = true := by
        obtain ⟨fr, hfr, hb⟩ := h
        rcases List.mem_cons.1 hfr with rfl | hm
        · exact absurd hb hf
        · exact ⟨fr, hm, hb⟩
      obtain ⟨i, hi, hbi, hfirst, heq⟩ := ih (k + 1) (acc ++ [trimStr f.text]) h'
      refine ⟨i + 1, Nat.succ_lt_succ hi, ?_, ?_, ?_⟩
      · simpa using hbi
      · intro j hj hj1
        cases j with
        | zero => simpa using hf
        | succ j' =>
          have hj' : j' < rest.length := by
            simp at hj
            omega
          have := hfirst j' hj' (by omega)
          simpa using this
      · show ocrTiffGo k (f :: rest) acc = _
        rw [show ocrTiffGo k (f :: rest) acc = if badFrame f = true
            then Except.error (frameErr (k + 1) f)
            else ocrTiffGo (k + 1) rest (acc ++ [trimStr f.text]) from rfl]
        rw [if_neg hf, heq]
        have harith : k + 1 + i + 1 = k + (i + 1) + 1 := by omega
        rw [harith]
        rfl

/-- **C7** (confirmed): if any decoded frame of a TIFF document reports a
falsy (missing/zero) width or height, or an empty pixel buffer, `ocrTiff`
fails with the decode error carrying the 1-based page index of the first
such frame — the document is aborted and no text (not even from earlier,
successful frames) is returned. -/
theorem ocrTiff_bad_frame_aborts (frames : List TiffFrame)
    (h : ∃ fr ∈ frames, badFrame fr = true) :
    ∃ i, ∃ hi : i < frames.length,
      badFrame (frames.get ⟨i, hi⟩) = true ∧
      (∀ j (hj : j < frames.length), j < i → badFrame (frames.get ⟨j, hj⟩) = false) ∧
      ocrTiff frames = .error (frameErr (i + 1) (frames.get ⟨i, hi⟩)) := by
  obtain ⟨i, hi, hbi, hfirst, heq⟩ := ocrTiffGo_bad frames 0 [] h
  refine ⟨i, hi, hbi, hfirst, ?_⟩
  have hne : frames.isEmpty = false := by
    obtain ⟨fr, hfr, -⟩ := h
    cases frames with
    | nil => exact absurd hfr (List.not_mem_nil fr)
    | cons a l => rfl
  unfold ocrTiff
  rw [hne]
  simp only [Bool.false_eq_true, if_false]
  rw [heq]
  rw [show (0 : ℕ) + i + 1 = i + 1 from by omega]
  rfl

/-- Witness for C7: a single frame reporting `width = 0` aborts the
document with `invalidDims` naming page `1`. -/
theorem ocrTiff_bad_frame_aborts_witness :
    ocrTiff [⟨some 0, some 2, [1, 2, 3, 4], "t"⟩] =
      .error (.invalidDims 1) := by
  obtain ⟨i, hi, hbi, hfirst, heq⟩ := ocrTiff_bad_frame_aborts
    [⟨some 0, some 2, [1, 2, 3, 4], "t"⟩]
    ⟨⟨some 0, some 2, [1, 2, 3, 4], "t"⟩, by simp, by decide⟩
  have hi0 : i = 0 := by
    simp at hi
    omega
  subst hi0
  rw [heq]
  rfl

/-! ## Claim C8 — totality and null-propagation of unparseable numerics -/

/-- Writing key `k` always produces a list of the shape
`pre ++ (k, w) :: post` with `pre`/`post` independent of the written
value. -/
theorem setF_split (l : Fields) (k : String) :
    ∃ pre post : Fields, k ∉ pre.map Prod.fst ∧
      ∀ w, setF l k w = pre ++ (k, w) :: post := by
  induction l with
  | nil => exact ⟨[], [], by simp, fun w => rfl⟩
  | cons p l ih =>
    obtain ⟨k0, u⟩ := p
    by_cases h0 : k0 = k
    · subst h0
      exact ⟨[], l, by simp, fun w => by simp [setF]⟩
    · obtain ⟨pre, post, hk, hsp⟩ := ih
      refine ⟨(k0, u) :: pre, post, by simp [Ne.symm h0, hk], fun w => ?_⟩
      have h0' : ¬ k = k0 := fun h => h0 h.symm
      simp [setF, h0, h0', hsp w]

theorem getF_mid_ne (pre post : Fields) (k m : String) (w w' : JVal) (hm : m ≠ k) :
    getF (pre ++ (k, w) :: post) m = getF (pre ++ (k, w') :: post) m := by
  induction pre with
  | nil => simp [getF, Ne.symm hm]
  | cons p pre ih =>
    obtain ⟨k0, u⟩ := p
    by_cases h0 : k0 = m <;> simp [getF, h0, ih]

theorem getF_mid_key (pre post : Fields) (k : String) (w : JVal)
    (hk : k ∉ pre.map Prod.fst) :
    getF (pre ++ (k, w) :: post) k = w := by
  induction pre with
  | nil => simp [getF]
  | cons p pre ih =>
    obtain ⟨k0, u⟩ := p
    simp only [List.map_cons, List.mem_cons, not_or] at hk
    have h0 : ¬ k0 = k := fun h => hk.1 h.symm
    simp [getF, h0, ih hk.2]

theorem mem_keys_setF_imp (l : Fields) (m k : String) (v : JVal)
    (h : k ∈ (setF l m v).map Prod.fst) : k ∈ l.map Prod.fst ∨ k = m := by
  induction l with
  | nil =>
    right
    simpa [setF] using h
  | cons p l ih =>
    obtain ⟨k0, u⟩ := p
    by_cases h0 : k0 = m
    · rw [show setF ((k0, u) :: l) m v = (k0, v) :: l from by simp [setF, h0]] at h
      simp only [List.map_cons, List.mem_cons] at h
      rcases h with h | h
      · exact Or.inl (by simp [h])
      · exact Or.inl (by simp [h])
    · rw [show setF ((k0, u) :: l) m v = (k0, u) :: setF l m v from by
        simp [setF, h0]] at h
      simp only [List.map_cons, List.mem_cons] at h
      rcases h with h | h
      · exact Or.inl (by simp [h])
      · rcases ih h with h2 | h2
        · exact Or.inl (by simp [h2])
        · exact Or.inr h2

theorem setF_append_of_mem (pre rest : Fields) (m : String) (v : JVal)
    (h : m ∈ pre.map Prod.fst) :
    setF (pre ++ rest) m v = setF pre m v ++ rest := by
  induction pre with
  | nil => simp at h
  | cons p pre ih =>
    obtain ⟨k0, u⟩ := p
    by_cases h0 : k0 = m
    · simp [setF, h0]
    · simp only [List.map_cons, List.mem_cons] at h
      rcases h with h | h
      · exact absurd h.symm h0
      · simp [setF, h0, ih h]

theorem setF_append_of_not_mem (pre post : Fields) (k m : String) (w : JVal)
    (v : JVal) (hpre : m ∉ pre.map Prod.fst) (hm : m ≠ k) :
    setF (pre ++ (k, w) :: post) m v = pre ++ (k, w) :: setF post m v := by
  induction pre with
  | nil => simp [setF, Ne.symm hm]
  | cons p pre ih =>
    obtain ⟨k0, u⟩ := p
    simp only [List.map_cons, List.mem_cons, not_or] at hpre
    have h1 : ¬ k0 = m := fun h => hpre.1 h.symm
    simp [setF, h1, ih hpre.2]

theorem setF_mid_self (pre post : Fields) (k : String) (w v : JVal)
    (hk : k ∉ pre.map Prod.fst) :
    setF (pre ++ (k, w) :: post) k v = pre ++ (k, v) :: post := by
  induction pre with
  | nil => simp [setF]
  | cons p pre ih =>
    obtain ⟨k0, u⟩ := p
    simp only [List.map_cons, List.mem_cons, not_or] at hk
    have h1 : ¬ k0 = k := fun h => hk.1 h.symm
    simp [setF, h1, ih hk.2]

/-- Writing a key `m ≠ k` keeps the `pre ++ (k, _) :: post` shape with
value-independent `pre'`/`post'`. -/
theorem setF_mid_comm (pre post : Fields) (k m : String) (v : JVal)
    (hm : m ≠ k) (hk : k ∉ pre.map Prod.fst) :
    ∃ pre' post' : Fields, k ∉ pre'.map Prod.fst ∧
      ∀ w, setF (pre ++ (k, w) :: post) m v = pre' ++ (k, w) :: post' := by
  by_cases hmem : m ∈ pre.map Prod.fst
  · refine ⟨setF pre m v, post, ?_, fun w => setF_append_of_mem pre _ m v hmem⟩
    intro hcon
    rcases mem_keys_setF_imp pre m k v hcon with h | h
    · exact hk h
    · exact hm h.symm
  · exact ⟨pre, setF post m v, hk,
      fun w => setF_append_of_not_mem pre post k m w v hmem hm⟩

/-- Writing the five output keys after a key `k` among the four numeric
document fields: the final object does not depend on the value stored at
`k` before the writes (it is overwritten). -/
theorem setF_chain5_eq (pre post : Fields) (k : String)
    (hkpre : k ∉ pre.map Prod.fst)
    (hk : k = "subtotal" ∨ k = "tax_rate" ∨ k = "tax_amount" ∨ k = "total")
    (j j' A B C D E : JVal) :
    setF (setF (setF (setF (setF (pre ++ (k, j) :: post) "subtotal" A)
      "tax_rate" B) "tax_amount" C) "total" D) "line_items" E =
    setF (setF (setF (setF (setF (pre ++ (k, j') :: post) "subtotal" A)
      "tax_rate" B) "tax_amount" C) "total" D) "line_items" E := by
  rcases hk with h | h | h | h <;> subst h
  · rw [setF_mid_self pre post _ j A hkpre, setF_mid_self pre post _ j' A hkpre]
  · obtain ⟨p1, q1, hk1, hs1⟩ :=
      setF_mid_comm pre post "tax_rate" "subtotal" A (by decide) hkpre
    rw [hs1 j, hs1 j', setF_mid_self p1 q1 _ j B hk1,
      setF_mid_self p1 q1 _ j' B hk1]
  · obtain ⟨p1, q1, hk1, hs1⟩ :=
      setF_mid_comm pre post "tax_amount" "subtotal" A (by decide) hkpre
    obtain ⟨p2, q2, hk2, hs2⟩ :=
      setF_mid_comm p1 q1 "tax_amount" "tax_rate" B (by decide) hk1
    rw [hs1 j, hs1 j', hs2 j, hs2 j', setF_mid_self p2 q2 _ j C hk2,
      setF_mid_self p2 q2 _ j' C hk2]
  · obtain ⟨p1, q1, hk1, hs1⟩ :=
      setF_mid_comm pre post "total" "subtotal" A (by decide) hkpre
    obtain ⟨p2, q2, hk2, hs2⟩ :=
      setF_mid_comm p1 q1 "total" "tax_rate" B (by decide) hk1
    obtain ⟨p3, q3, hk3, hs3⟩ :=
      setF_mid_comm p2 q2 "total" "tax_amount" C (by decide) hk2
    rw [hs1 j, hs1 j', hs2 j, hs2 j', hs3 j, hs3 j',
      setF_mid_self p3 q3 _ j D hk3, setF_mid_self p3 q3 _ j' D hk3]

/-- C8 (corrected): `reconcileMath` is NOT total — a `null` (or
`undefined`) element inside the `line_items` array makes the per-item
repair read a property of `null`, which throws a `TypeError`
(src/server/index.js:86 `it.qty` inside `items.map`). -/
theorem reconcile_throws_on_null_item :
    reconcileMath (.vObj [("line_items", .vArr [.vNull])]) =
      .error .typeError := rfl

/-- C8: reconcile never throws ONLY on inputs whose `line_items` elements
are not `null`/`undefined` (`goodItems`); on such inputs it is total, and
every unparseable numeric behaves exactly like an explicit `null`: at the
document level, storing any value `j` with `toNumber j = none` in one of
the four numeric fields gives the same result as storing `null` there,
and likewise at the item level for `qty`/`unit_price`/`amount`. -/
theorem reconcile_total_null_propagation :
    (∀ v : JVal, goodItems v → ∃ out, reconcileMath v = .ok out) ∧
    (∀ (f : Fields) (k : String) (j : JVal),
      k = "subtotal" ∨ k = "tax_rate" ∨ k = "tax_amount" ∨ k = "total" →
      toNumber j = none →
      reconcileMath (.vObj (setF f k j)) =
        reconcileMath (.vObj (setF f k .vNull))) ∧
    (∀ (g : Fields) (k : String) (j : JVal),
      k = "qty" ∨ k = "unit_price" ∨ k = "amount" →
      toNumber j = none →
      repairItem (.vObj (setF g k j)) =
        repairItem (.vObj (setF g k .vNull))) := by
  refine ⟨?_, ?_, ?_⟩
  · intro v hv
    cases v with
    | vObj f =>
      have hv' : ∀ it ∈ rawItems f, it ≠ JVal.vNull ∧ it ≠ JVal.vUndef := hv
      obtain ⟨its, hits⟩ := mapME_ok_of_all repairItem (rawItems f)
        (fun x hx => repairItem_ok x (hv' x hx).1 (hv' x hx).2)
      refine ⟨.vObj (outFields f its), ?_⟩
      have h1 : reconcileMath (.vObj f) = (reconcileObj f).map .vObj := rfl
      rw [h1, reconcileObj_eq f its hits]
      rfl
    | vNull => exact ⟨_, rfl⟩
    | vUndef => exact ⟨_, rfl⟩
    | vNum q => exact ⟨_, rfl⟩
    | vStr s => exact ⟨_, rfl⟩
    | vBool b => exact ⟨_, rfl⟩
    | vArr l => exact ⟨_, rfl⟩
  · intro f k j hk hj
    obtain ⟨pre, post, hkpre, hsp⟩ := setF_split f k
    rw [hsp j, hsp .vNull]
    have hget : ∀ m, m ≠ k →
        getF (pre ++ (k, j) :: post) m = getF (pre ++ (k, .vNull) :: post) m :=
      fun m hm => getF_mid_ne pre post k m j .vNull hm
    have hTN : ∀ m, toNumber (getF (pre ++ (k, j) :: post) m) =
        toNumber (getF (pre ++ (k, .vNull) :: post) m) := by
      intro m
      by_cases hm : m = k
      · subst hm
        rw [getF_mid_key pre post m j hkpre,
          getF_mid_key pre post m .vNull hkpre, hj]
        rfl
      · rw [hget m hm]
    have hli : ("line_items" : String) ≠ k := by
      rcases hk with h | h | h | h <;> subst h <;> decide
    have hraw : rawItems (pre ++ (k, j) :: post) =
        rawItems (pre ++ (k, .vNull) :: post) := by
      unfold rawItems
      rw [hget _ hli]
    have hsub : subNorm (pre ++ (k, j) :: post) =
        subNorm (pre ++ (k, .vNull) :: post) := by
      unfold subNorm; rw [hTN "subtotal"]
    have hrate : rateNorm (pre ++ (k, j) :: post) =
        rateNorm (pre ++ (k, .vNull) :: post) := by
      unfold rateNorm; rw [hTN "tax_rate"]
    have htax : taxNorm (pre ++ (k, j) :: post) =
        taxNorm (pre ++ (k, .vNull) :: post) := by
      unfold taxNorm; rw [hTN "tax_amount"]
    have htot : totNorm (pre ++ (k, j) :: post) =
        totNorm (pre ++ (k, .vNull) :: post) := by
      unfold totNorm; rw [hTN "total"]
    have houtF : ∀ its, outFields (pre ++ (k, j) :: post) its =
        outFields (pre ++ (k, .vNull) :: post) its := by
      intro its
      have hsubD : subDerived (pre ++ (k, j) :: post) its =
          subDerived (pre ++ (k, .vNull) :: post) its := by
        unfold subDerived; rw [hsub]
      have htaxD : taxDerived (pre ++ (k, j) :: post) its =
          taxDerived (pre ++ (k, .vNull) :: post) its := by
        unfold taxDerived; rw [htax, hsubD, hrate]
      have htotD : totDerived (pre ++ (k, j) :: post) its =
          totDerived (pre ++ (k, .vNull) :: post) its := by
        unfold totDerived; rw [htot, hsubD, htaxD]
      unfold outFields
      rw [hsubD, hrate, htaxD, htotD]
      exact setF_chain5_eq pre post k hkpre hk j .vNull _ _ _ _ _
    have hobj : reconcileObj (pre ++ (k, j) :: post) =
        reconcileObj (pre ++ (k, .vNull) :: post) := by
      unfold reconcileObj
      rw [hraw]
      cases hM : mapME repairItem (rawItems (pre ++ (k, JVal.vNull) :: post)) with
      | error e => rfl
      | ok its => exact congrArg Except.ok (houtF its)
    exact congrArg (Except.map JVal.vObj) hobj
  · intro g k j hk hj
    obtain ⟨pre, post, hkpre, hsp⟩ := setF_split g k
    rw [hsp j, hsp .vNull]
    have hget : ∀ m, m ≠ k →
        getF (pre ++ (k, j) :: post) m = getF (pre ++ (k, .vNull) :: post) m :=
      fun m hm => getF_mid_ne pre post k m j .vNull hm
    have hITN : ∀ m, toNumber (itemGet (JVal.vObj (pre ++ (k, j) :: post)) m) =
        toNumber (itemGet (JVal.vObj (pre ++ (k, .vNull) :: post)) m) := by
      intro m
      by_cases hm : m = k
      · subst hm
        have e1 : itemGet (JVal.vObj (pre ++ (m, j) :: post)) m = j :=
          getF_mid_key pre post m j hkpre
        have e2 : itemGet (JVal.vObj (pre ++ (m, .vNull) :: post)) m = .vNull :=
          getF_mid_key pre post m .vNull hkpre
        rw [e1, e2, hj]
        rfl
      · exact congrArg toNumber (hget m hm)
    have hps : ("product_or_service" : String) ≠ k := by
      rcases hk with h | h | h <;> subst h <;> decide
    have hd : ("description" : String) ≠ k := by
      rcases hk with h | h | h <;> subst h <;> decide
    have hdps : itemGet (JVal.vObj (pre ++ (k, j) :: post)) "product_or_service" =
        itemGet (JVal.vObj (pre ++ (k, .vNull) :: post)) "product_or_service" :=
      hget _ hps
    have hdd : itemGet (JVal.vObj (pre ++ (k, j) :: post)) "description" =
        itemGet (JVal.vObj (pre ++ (k, .vNull) :: post)) "description" :=
      hget _ hd
    rw [repairItem_eq (.vObj (pre ++ (k, j) :: post)) nofun nofun,
      repairItem_eq (.vObj (pre ++ (k, .vNull) :: post)) nofun nofun,
      hdps, hdd, hITN "qty", hITN "unit_price", hITN "amount"]

/-- C8 witness: a record with no line items reconciles without error, and
the unparseable string "abc" in `subtotal` (resp. an item's `qty`)
behaves exactly like `null`. -/
theorem reconcile_total_null_propagation_witness :
    (∃ out, reconcileMath (.vObj []) = .ok out) ∧
    reconcileMath (.vObj (setF [] "subtotal" (.vStr "abc"))) =
      reconcileMath (.vObj (setF [] "subtotal" .vNull)) ∧
    repairItem (.vObj (setF [] "qty" (.vStr "abc"))) =
      repairItem (.vObj (setF [] "qty" .vNull)) := by
  refine ⟨reconcile_total_null_propagation.1 (.vObj []) (fun it hit => nomatch hit),
    reconcile_total_null_propagation.2.1 [] "subtotal" (.vStr "abc")
      (Or.inl rfl) ?_,
    reconcile_total_null_propagation.2.2 [] "qty" (.vStr "abc")
      (Or.inl rfl) ?_⟩ <;>
  simp [toNumber, jsToString, isNumChar]

/-! ## Claim C9 — descriptive fields of repaired items -/

theorem coalesceDesc_nullish (v : JVal) (h : v = .vNull ∨ v = .vUndef) :
    coalesceDesc v = .vNull := by
  rcases h with h | h <;> subst h <;> rfl

theorem coalesceDesc_of_ne (v : JVal) (h1 : v ≠ .vNull) (h2 : v ≠ .vUndef) :
    coalesceDesc v = v := by
  cases v <;> simp_all [coalesceDesc]

/-- C9 (corrected): for every non-nullish line item, the repaired item's
descriptive fields are `null` whenever the input field was `null` or
absent (`undefined`), and are never `undefined`; but any other value —
including the empty string — is kept verbatim, so the output CAN be the
empty string. -/
theorem repair_descriptive_null_not_undef (it : JVal)
    (h1 : it ≠ .vNull) (h2 : it ≠ .vUndef) :
    ∃ out, repairItem it = .ok out ∧
      ((itemGet it "product_or_service" = .vNull ∨
          itemGet it "product_or_service" = .vUndef) →
        itemGet out "product_or_service" = .vNull) ∧
      ((itemGet it "description" = .vNull ∨
          itemGet it "description" = .vUndef) →
        itemGet out "description" = .vNull) ∧
      itemGet out "product_or_service" ≠ .vUndef ∧
      itemGet out "description" ≠ .vUndef ∧
      (itemGet it "product_or_service" ≠ .vNull →
        itemGet it "product_or_service" ≠ .vUndef →
        itemGet out "product_or_service" = itemGet it "product_or_service") ∧
      (itemGet it "description" ≠ .vNull →
        itemGet it "description" ≠ .vUndef →
        itemGet out "description" = itemGet it "description") := by
  refine ⟨_, repairItem_eq it h1 h2, ?_, ?_, ?_, ?_, ?_, ?_⟩
  · intro h
    rw [itemGet_mkItem_pos]
    exact coalesceDesc_nullish _ h
  · intro h
    rw [itemGet_mkItem_desc]
    exact coalesceDesc_nullish _ h
  · rw [itemGet_mkItem_pos]
    exact coalesceDesc_ne_undef _
  · rw [itemGet_mkItem_desc]
    exact coalesceDesc_ne_undef _
  · intro hn hu
    rw [itemGet_mkItem_pos]
    exact coalesceDesc_of_ne _ hn hu
  · intro hn hu
    rw [itemGet_mkItem_desc]
    exact coalesceDesc_of_ne _ hn hu

/-- C9 counterexample: an empty-string description survives repair as
the empty string (`"" ?? null` keeps `""`: the empty string is falsy but
not nullish), contradicting "never the empty string". -/
theorem repair_keeps_empty_description :
    repairItem (.vObj [("description", .vStr "")]) =
      .ok (.vObj [("product_or_service", .vNull), ("description", .vStr ""),
        ("qty", .vNull), ("unit_price", .vNull), ("amount", .vNull)]) := rfl

/-- C9 witness: on an item with a `null` product and string description,
the repaired product is `null` and the description is kept. -/
theorem repair_descriptive_null_not_undef_witness :
    ∃ out, repairItem (.vObj [("product_or_service", .vNull),
        ("description", .vStr "x")]) = .ok out ∧
      itemGet out "product_or_service" = .vNull ∧
      itemGet out "description" = .vStr "x" := by
  obtain ⟨out, hout, hp, _, _, _, _, hkeep⟩ :=
    repair_descriptive_null_not_undef
      (.vObj [("product_or_service", .vNull), ("description", .vStr "x")])
      nofun nofun
  exact ⟨out, hout, hp (Or.inl rfl), (hkeep nofun nofun).trans rfl⟩

/-! ## Claim C10 — frame effect of reconciliation -/

theorem repairItem_shape (x v : JVal) (h : repairItem x = .ok v) :
    ∃ p d q u a, v = mkItem p d q u a := by
  cases x <;> simp [repairItem] at h <;> exact ⟨_, _, _, _, _, h.symm⟩

/-- C10: a successful reconciliation returns an object that agrees with
the input on every top-level key other than the five written ones
(`subtotal`, `tax_rate`, `tax_amount`, `total`, `line_items`), and whose
line items all are objects with exactly the five keys
`product_or_service`, `description`, `qty`, `unit_price`, `amount`, in
that order — extra keys of input items are dropped. -/
theorem reconcile_frame_effect (f : Fields) (out : JVal)
    (h : reconcileMath (.vObj f) = .ok out) :
    ∃ f', out = .vObj f' ∧
      (∀ k, k ≠ "subtotal" → k ≠ "tax_rate" → k ≠ "tax_amount" →
        k ≠ "total" → k ≠ "line_items" → getF f' k = getF f k) ∧
      ∀ v ∈ rawItems f', ∃ ifs, v = .vObj ifs ∧
        ifs.map Prod.fst =
          ["product_or_service", "description", "qty", "unit_price",
            "amount"] := by
  have h' : (reconcileObj f).map JVal.vObj = .ok out := h
  cases hro : reconcileObj f with
  | error e => rw [hro] at h'; cases h'
  | ok f' =>
    rw [hro] at h'
    cases h'
    obtain ⟨its, hits, hf'⟩ := reconcileObj_inv f f' hro
    refine ⟨f', rfl, ?_, ?_⟩
    · intro k h1 h2 h3 h4 h5
      rw [hf']
      exact getF_outFields_other f its k h1 h2 h3 h4 h5
    · intro v hv
      rw [hf', rawItems_outFields] at hv
      obtain ⟨x, _, hx⟩ := mapME_mem repairItem (rawItems f) its hits v hv
      obtain ⟨p, d, q, u, a, rfl⟩ := repairItem_shape x v hx
      exact ⟨_, rfl, rfl⟩

/-- C10 witness: a record with extra top-level fields and an item with an
extra key reconciles keeping `vendor` / `notes` verbatim and producing an
item with exactly the five canonical keys. -/
theorem reconcile_frame_effect_witness :
    ∃ f', reconcileMath (.vObj [("vendor", .vStr "ACME"),
        ("line_items", .vArr [.vObj [("sku", .vStr "Z9"),
          ("description", .vStr "w")]]), ("notes", .vStr "n")]) =
        .ok (.vObj f') ∧
      getF f' "vendor" = .vStr "ACME" ∧ getF f' "notes" = .vStr "n" ∧
      ∀ v ∈ rawItems f', ∃ ifs, v = .vObj ifs ∧
        ifs.map Prod.fst =
          ["product_or_service", "description", "qty", "unit_price",
            "amount"] := by
  obtain ⟨f', heq, hframe, hitems⟩ := reconcile_frame_effect
    [("vendor", .vStr "ACME"),
      ("line_items", .vArr [.vObj [("sku", .vStr "Z9"),
        ("description", .vStr "w")]]), ("notes", .vStr "n")] _ rfl
  injection heq with hf2
  subst hf2
  refine ⟨_, rfl, ?_, ?_, hitems⟩
  · rw [hframe "vendor" (by decide) (by decide) (by decide) (by decide)
      (by decide)]
    rfl
  · rw [hframe "notes" (by decide) (by decide) (by decide) (by decide)
      (by decide)]
    rfl
